import Mathlib

/-!
# Bulk insert batching (package bulk, bulk.go)

A shallow embedding of the Insert helper of bulk.go: the constructor NewInsert,
the methods Values, Finish and doInsert, and the part of the squirrel insert
builder and of the database handle that these methods touch.

Modelling decisions:

* The uint16 fields rows and limit are natural numbers; every uint16 result is
  reduced modulo 65536 explicitly (the conversion in NewInsert, the increment
  in Values).
* Go int arithmetic in NewInsert is done over the integers; the division by a
  zero column count, a run-time panic in Go, makes NewInsert return none.
* The squirrel builder is a value holding the table, the columns and the rows
  appended so far. What ToSql answers for a builder and what the database
  answers for a statement are not decided by bulk.go: both are fields of an
  environment over which every theorem quantifies.
* Values receives a slice and the builder keeps that slice, not a copy. The
  first set of definitions (InsertBuilder, Insert, Values, runCalls) takes a
  row to be the elements of its slice: it describes the runs in which the
  caller does not assign to a slice while the builder holds it. The second
  set (RefBuilder, RefInsert, refValues, refRun) keeps the slices by address in
  the memory of the caller and lets the caller assign to them between calls;
  theorem refRun_read relates the two.
* Effects are explicit: every method takes and returns the receiver together
  with the log of flush attempts made so far.
-/

namespace Bulk

/-- Values of the variadic interface arguments of Values. -/
inductive Value where
  | int (i : Int)
  | str (s : String)
  | null
  deriving DecidableEq, Repr

/-- Go error values, identified by their message. -/
abbrev Err := String

/-- The squirrel.InsertBuilder as far as bulk.go uses it: the table given to
Insert, the columns given to Columns and the rows appended by Values. -/
structure InsertBuilder where
  into : String
  columns : List String
  values : List (List Value)
  deriving DecidableEq, Repr

/-- The builder method Values: appends one row; the builder is persistent. The
row is given by its elements, which is what ToSql reads as long as the caller
leaves the slice alone until the flush; RefBuilder.Values keeps the slice. -/
def InsertBuilder.Values (b : InsertBuilder) (values : List Value) : InsertBuilder :=
  { b with values := b.values ++ [values] }

/-- The expression
squirrel.StatementBuilder.PlaceholderFormat(squirrel.Dollar).Insert(table).Columns(columns...)
used by NewInsert and by the reset of doInsert. -/
def newBuilder (table : String) (columns : List String) : InsertBuilder :=
  { into := table, columns := columns, values := [] }

/-- The pair (query, args) returned by ToSql and handed to ExecContext. -/
structure Query where
  sql : String
  args : List Value
  deriving DecidableEq, Repr

/-- The collaborators of bulk.go. toSql is the ToSql method of the builder
(an error or a statement). execContext is db.ExecContext with the stored
context: its answer (none for a nil error) may depend on the statement and on
all statements executed before it. -/
structure Env where
  toSql : InsertBuilder → Except Err Query
  execContext : List Query → Query → Option Err

/-- The struct Insert without the two handles ctx and db, whose behaviour is
the environment. -/
structure Insert where
  rows : Nat
  limit : Nat
  table : String
  columns : List String
  insert : InsertBuilder
  errors : List Err
  deriving DecidableEq, Repr

/-- The conversion uint16(x) of a Go int. -/
def toUint16 (x : Int) : Nat := (x % 65536).toNat

/-- NewInsert: limit is uint16(999/len(columns) - 1); the integer division
panics for an empty column list. -/
def NewInsert (table : String) (columns : List String) : Option Insert :=
  if columns.length = 0 then none
  else some
    { rows := 0
      limit := toUint16 (999 / (columns.length : Int) - 1)
      table := table
      columns := columns
      insert := newBuilder table columns
      errors := [] }

/-- What one call of doInsert did. -/
inductive FlushResult where
  | buildFailed (err : Err)
  | execFailed (q : Query) (err : Err)
  | ok (q : Query)
  deriving DecidableEq, Repr

/-- One call of doInsert: the builder ToSql was called on, and the result. -/
structure Flush where
  stmt : InsertBuilder
  result : FlushResult
  deriving DecidableEq, Repr

/-- The rows of the builder a flush was made from. -/
def Flush.rows (f : Flush) : List (List Value) := f.stmt.values

/-- The statement a flush handed to ExecContext, if it got that far. -/
def Flush.query (f : Flush) : Option Query :=
  match f.result with
  | .buildFailed _ => none
  | .execFailed q _ => some q
  | .ok q => some q

/-- The error a flush recorded, if it failed. -/
def Flush.error (f : Flush) : Option Err :=
  match f.result with
  | .buildFailed err => some err
  | .execFailed _ err => some err
  | .ok _ => none

/-- The statements handed to ExecContext so far, oldest first. -/
def executed (log : List Flush) : List Query := log.filterMap Flush.query

/-- The errors of the failed flushes of a log, oldest first. -/
def failures (log : List Flush) : List Err := log.filterMap Flush.error

/-- The label reset of doInsert: a new builder for the same table and columns,
and a zero row counter. -/
def reset (m : Insert) : Insert :=
  { m with insert := newBuilder m.table m.columns, rows := 0 }

/-- The receiver together with the log of the flushes made so far. -/
abbrev Run := Insert × List Flush

/-- The method doInsert. -/
def doInsert (env : Env) (s : Run) : Run :=
  match env.toSql s.1.insert with
  | .error err =>
    (reset { s.1 with errors := s.1.errors ++ [err] },
      s.2 ++ [{ stmt := s.1.insert, result := .buildFailed err }])
  | .ok q =>
    match env.execContext (executed s.2) q with
    | some err =>
      (reset { s.1 with errors := s.1.errors ++ [err] },
        s.2 ++ [{ stmt := s.1.insert, result := .execFailed q err }])
    | none =>
      (reset s.1, s.2 ++ [{ stmt := s.1.insert, result := .ok q }])

/-- The first two statements of Values: append the row, increment the uint16
counter. -/
def addRow (m : Insert) (values : List Value) : Insert :=
  { m with insert := m.insert.Values values, rows := (m.rows + 1) % 65536 }

/-- The method Values. It returns nothing to its caller: the result is only
the new receiver and log. -/
def Values (env : Env) (s : Run) (values : List Value) : Run :=
  if (addRow s.1 values).rows ≥ (addRow s.1 values).limit then
    doInsert env (addRow s.1 values, s.2)
  else (addRow s.1 values, s.2)

/-- The error made by fmt.Errorf("%d errors: %#v", len(m.errors), m.errors):
the two arguments handed to the formatter. -/
structure FinishError where
  count : Nat
  errs : List Err
  deriving DecidableEq, Repr

/-- The return statement of Finish, on the receiver left by the flush. -/
def finishResult (m : Insert) : Option FinishError :=
  if m.errors.length = 0 then none
  else some { count := m.errors.length, errs := m.errors }

/-- The receiver and log after the first statement of Finish. -/
def finishRun (env : Env) (s : Run) : Run :=
  if s.1.rows > 0 then doInsert env s else s

/-- The method Finish: the new receiver and log, and the returned error
(none for nil). -/
def Finish (env : Env) (s : Run) : Run × Option FinishError :=
  (finishRun env s, finishResult (finishRun env s).1)

/-- A call of one of the two exported methods. -/
inductive Call where
  | values (vs : List Value)
  | finish
  deriving DecidableEq, Repr

/-- One call, its return value dropped. -/
def step (env : Env) (s : Run) : Call → Run
  | .values vs => Values env s vs
  | .finish => (Finish env s).1

/-- A sequence of calls, in order. -/
def runCalls (env : Env) (s : Run) (calls : List Call) : Run :=
  calls.foldl (step env) s

/-- A sequence of Values calls, one per row, in order. -/
def addRows (env : Env) (s : Run) (rows : List (List Value)) : Run :=
  rows.foldl (Values env) s

/-- The rows passed by the Values calls of a sequence of calls, in order. -/
def Call.rowsOf : List Call → List (List Value)
  | [] => []
  | .values vs :: cs => vs :: Call.rowsOf cs
  | .finish :: cs => Call.rowsOf cs

/-- An environment in which every build and every execution succeeds. -/
def okEnv : Env :=
  { toSql := fun b => .ok { sql := b.into, args := b.values.flatten }
    execContext := fun _ _ => none }

/-- An environment in which every build succeeds and every execution fails. -/
def failEnv : Env :=
  { toSql := fun b => .ok { sql := b.into, args := b.values.flatten }
    execContext := fun _ _ => some "exec failed" }

/-- An environment in which every build fails. -/
def noBuildEnv : Env :=
  { toSql := fun _ => .error "build failed"
    execContext := fun _ _ => none }

/-- The receiver NewInsert returns for the table t and the columns a, b. -/
def insertAB : Insert :=
  { rows := 0
    limit := 498
    table := "t"
    columns := ["a", "b"]
    insert := newBuilder "t" ["a", "b"]
    errors := [] }

/-- The receiver insertAB after the first two statements of Values(1, 2). -/
def insertAB1 : Insert := addRow insertAB [Value.int 1, Value.int 2]

/-- The rows (i, i*2) for i below n. -/
def rowsAB (n : Nat) : List (List Value) :=
  (List.range n).map fun (i : Nat) => [Value.int (i : Int), Value.int ((i : Int) * 2)]

/-- The receiver at rest: the counter is the number of rows in the builder, the
threshold fits uint16, and the counter is below the threshold or zero. -/
def Inv (m : Insert) : Prop :=
  m.rows = m.insert.values.length ∧ m.limit < 65536 ∧ (m.rows < m.limit ∨ m.rows = 0)

instance (m : Insert) : Decidable (Inv m) := by
  unfold Inv
  infer_instance

/-- The numbers of rows of the flushes of a log, oldest first. -/
def sizes (log : List Flush) : List Nat := log.map fun f => f.rows.length

/-- The rows of the flushes of a log, in flush order. -/
def flushedRows (log : List Flush) : List (List Value) := (log.map Flush.rows).flatten

/-- What a piece of a run that was passed the given rows did: it appended
flushes to the log, appended their errors to the error list, moved rows from
the builder to the flushes without losing, repeating or reordering any, and
left threshold, table and columns alone. -/
def Grows (s t : Run) (rows : List (List Value)) : Prop :=
  ∃ new : List Flush, t.2 = s.2 ++ new
    ∧ t.1.errors = s.1.errors ++ failures new
    ∧ flushedRows new ++ t.1.insert.values = s.1.insert.values ++ rows
    ∧ t.1.limit = s.1.limit ∧ t.1.table = s.1.table ∧ t.1.columns = s.1.columns

/-- The statement every flush of the log handed to ExecContext is the one ToSql
made from the flushed builder. -/
def Rendered (env : Env) (log : List Flush) : Prop :=
  ∀ f ∈ log, f.query = (env.toSql f.stmt).toOption

/-- Go integer division of two int values: a run-time panic for a zero divisor
(none), else the quotient truncated toward zero. -/
def goDiv (a b : Int) : Option Int :=
  if b = 0 then none else some (Int.tdiv a b)

/-- Every flush of a log holds at least one row and at most the given number
of rows. -/
def Bounded (bound : Nat) (log : List Flush) : Prop :=
  ∀ f ∈ log, 1 ≤ f.rows.length ∧ f.rows.length ≤ bound

/-- Two runs agree on every field of the receiver but the error list, and
their logs hold the same flushed builders in the same order. -/
def SameBatching (s t : Run) : Prop :=
  s.1.rows = t.1.rows ∧ s.1.limit = t.1.limit ∧ s.1.table = t.1.table
    ∧ s.1.columns = t.1.columns ∧ s.1.insert = t.1.insert
    ∧ s.2.map Flush.stmt = t.2.map Flush.stmt

/-! ### Rows held by reference

Values(values ...interface{}) receives a slice, and neither bulk.go nor the
builder copies it: the builder keeps the slice the caller passed, and ToSql
reads its elements when the flush is made. The definitions above take a row to
be the elements of its slice; they describe every run in which the caller does
not assign to a slice between passing it and its flush (refRun_read below).
The definitions that follow keep rows by the address of the slice and let the
caller assign to its slices between calls. -/

/-- The memory of the caller: the elements of each slice, by its address. -/
abbrev Heap := Nat → List Value

/-- The assignment s[i] = v by the caller, s the slice at address ref. -/
def Heap.write (heap : Heap) (ref i : Nat) (v : Value) : Heap :=
  fun a => if a = ref then (heap a).set i v else heap a

/-- The squirrel.InsertBuilder with its rows as Go holds them: the slices
given to Values, by address. -/
structure RefBuilder where
  into : String
  columns : List String
  values : List Nat
  deriving DecidableEq, Repr

/-- The builder method Values: appends the slice it was given. -/
def RefBuilder.Values (b : RefBuilder) (ref : Nat) : RefBuilder :=
  { b with values := b.values ++ [ref] }

/-- What ToSql reads from a builder: the elements its slices hold now. -/
def RefBuilder.read (heap : Heap) (b : RefBuilder) : InsertBuilder :=
  { into := b.into, columns := b.columns, values := b.values.map heap }

/-- The builder expression of NewInsert and of the reset of doInsert. -/
def newRefBuilder (table : String) (columns : List String) : RefBuilder :=
  { into := table, columns := columns, values := [] }

/-- The struct Insert with the builder holding slices. -/
structure RefInsert where
  rows : Nat
  limit : Nat
  table : String
  columns : List String
  insert : RefBuilder
  errors : List Err
  deriving DecidableEq, Repr

/-- The receiver with every row replaced by the elements its slice holds. -/
def RefInsert.read (heap : Heap) (m : RefInsert) : Insert :=
  { rows := m.rows
    limit := m.limit
    table := m.table
    columns := m.columns
    insert := m.insert.read heap
    errors := m.errors }

/-- NewInsert, for the receiver holding slices. -/
def refNewInsert (table : String) (columns : List String) : Option RefInsert :=
  if columns.length = 0 then none
  else some
    { rows := 0
      limit := toUint16 (999 / (columns.length : Int) - 1)
      table := table
      columns := columns
      insert := newRefBuilder table columns
      errors := [] }

/-- The label reset of doInsert. -/
def refReset (m : RefInsert) : RefInsert :=
  { m with insert := newRefBuilder m.table m.columns, rows := 0 }

/-- The memory of the caller, the receiver and the log of flushes. -/
structure RefRun where
  heap : Heap
  m : RefInsert
  log : List Flush

/-- The run with every row replaced by the elements its slice holds. -/
def RefRun.read (s : RefRun) : Run := (s.m.read s.heap, s.log)

/-- The method doInsert: ToSql reads the slices as they are at the flush. -/
def refDoInsert (env : Env) (s : RefRun) : RefRun :=
  match env.toSql (s.m.insert.read s.heap) with
  | .error err =>
    { s with
      m := refReset { s.m with errors := s.m.errors ++ [err] }
      log := s.log ++ [{ stmt := s.m.insert.read s.heap, result := .buildFailed err }] }
  | .ok q =>
    match env.execContext (executed s.log) q with
    | some err =>
      { s with
        m := refReset { s.m with errors := s.m.errors ++ [err] }
        log := s.log ++ [{ stmt := s.m.insert.read s.heap, result := .execFailed q err }] }
    | none =>
      { s with
        m := refReset s.m
        log := s.log ++ [{ stmt := s.m.insert.read s.heap, result := .ok q }] }

/-- The first two statements of Values. -/
def refAddRow (m : RefInsert) (ref : Nat) : RefInsert :=
  { m with insert := m.insert.Values ref, rows := (m.rows + 1) % 65536 }

/-- The method Values, called as Values(s...) with s the slice at ref. -/
def refValues (env : Env) (s : RefRun) (ref : Nat) : RefRun :=
  if (refAddRow s.m ref).rows ≥ (refAddRow s.m ref).limit then
    refDoInsert env { s with m := refAddRow s.m ref }
  else { s with m := refAddRow s.m ref }

/-- The run after the first statement of Finish. -/
def refFinishRun (env : Env) (s : RefRun) : RefRun :=
  if s.m.rows > 0 then refDoInsert env s else s

/-- The method Finish. -/
def refFinish (env : Env) (s : RefRun) : RefRun × Option FinishError :=
  (refFinishRun env s, finishResult (refFinishRun env s).read.1)

/-- What the caller does: a call Values(s...), a call Finish(), or an
assignment s[i] = v to one of its slices. -/
inductive RefCall where
  | values (ref : Nat)
  | finish
  | write (ref i : Nat) (v : Value)
  deriving DecidableEq, Repr

/-- One action of the caller. -/
def refStep (env : Env) (s : RefRun) : RefCall → RefRun
  | .values ref => refValues env s ref
  | .finish => (refFinish env s).1
  | .write ref i v => { s with heap := s.heap.write ref i v }

/-- A sequence of actions of the caller, in order. -/
def refRun (env : Env) (s : RefRun) (calls : List RefCall) : RefRun :=
  calls.foldl (refStep env) s

/-- The rows passed to Values: the elements each slice held when it was
passed, in call order. -/
def passedRows : Heap → List RefCall → List (List Value)
  | _, [] => []
  | heap, .values ref :: cs => heap ref :: passedRows heap cs
  | heap, .finish :: cs => passedRows heap cs
  | heap, .write ref i v :: cs => passedRows (heap.write ref i v) cs

/-- The method calls among the actions of the caller, each Values call with
the elements its slice held when it was passed. -/
def callsOf : Heap → List RefCall → List Call
  | _, [] => []
  | heap, .values ref :: cs => Call.values (heap ref) :: callsOf heap cs
  | heap, .finish :: cs => Call.finish :: callsOf heap cs
  | heap, .write ref i v :: cs => callsOf (heap.write ref i v) cs

/-- The caller never assigns to a slice that the builder still holds. -/
def refSafe (env : Env) : RefRun → List RefCall → Bool
  | _, [] => true
  | s, .values ref :: cs => refSafe env (refStep env s (.values ref)) cs
  | s, .finish :: cs => refSafe env (refStep env s .finish) cs
  | s, .write ref i v :: cs =>
    decide (ref ∉ s.m.insert.values) && refSafe env (refStep env s (.write ref i v)) cs

/-- The rows of the flushes that handed a statement to the database, in flush
order. -/
def handedRows (log : List Flush) : List (List Value) :=
  flushedRows (log.filter fun f => f.query.isSome)

/-- An environment whose ToSql refuses a builder without a table name, as
squirrel does, and in which every execution succeeds. -/
def emptyTableEnv : Env :=
  { toSql := fun b =>
      if b.into = "" then .error "insert statements must specify a table"
      else .ok { sql := b.into, args := b.values.flatten }
    execContext := fun _ _ => none }

/-- The receiver NewInsert returns for an empty table name and the columns
a, b. -/
def insertNoTable : Insert :=
  { rows := 0
    limit := 498
    table := ""
    columns := ["a", "b"]
    insert := newBuilder "" ["a", "b"]
    errors := [] }

/-- The memory in which every slice holds the elements 1, 2. -/
def heap12 : Heap := fun _ => [Value.int 1, Value.int 2]

/-- The receiver refNewInsert returns for the table t and the columns a, b. -/
def refInsertAB : RefInsert :=
  { rows := 0
    limit := 498
    table := "t"
    columns := ["a", "b"]
    insert := newRefBuilder "t" ["a", "b"]
    errors := [] }

/-! ## The constructor -/

theorem toUint16_lt (x : Int) : toUint16 x < 65536 := by
  unfold toUint16
  have h : x % 65536 < 65536 := Int.emod_lt_of_pos x (by norm_num)
  omega

theorem toUint16_of_range (x : Int) (h0 : 0 ≤ x) (h1 : x < 65536) :
    (toUint16 x : Int) = x := by
  unfold toUint16
  rw [Int.emod_eq_of_lt h0 h1]
  omega

theorem NewInsert_of_pos (table : String) (columns : List String)
    (h : 0 < columns.length) :
    NewInsert table columns = some
      { rows := 0
        limit := toUint16 (999 / (columns.length : Int) - 1)
        table := table
        columns := columns
        insert := newBuilder table columns
        errors := [] } := by
  unfold NewInsert
  rw [if_neg (by omega)]

theorem NewInsert_some {table : String} {columns : List String} {m : Insert}
    (h : NewInsert table columns = some m) :
    0 < columns.length ∧ m.rows = 0 ∧ m.limit = toUint16 (999 / (columns.length : Int) - 1)
      ∧ m.table = table ∧ m.columns = columns ∧ m.insert = newBuilder table columns
      ∧ m.errors = [] := by
  unfold NewInsert at h
  split at h
  · cases h
  · cases h
    exact ⟨by omega, rfl, rfl, rfl, rfl, rfl, rfl⟩

theorem NewInsert_inv {table : String} {columns : List String} {m : Insert}
    (h : NewInsert table columns = some m) : Inv m := by
  obtain ⟨_, hr, hl, _, _, hi, _⟩ := NewInsert_some h
  refine ⟨?_, ?_, Or.inr hr⟩
  · rw [hr, hi]; rfl
  · rw [hl]; exact toUint16_lt _

/-! ## One flush -/

/-- Every call of doInsert appends exactly one flush, made from the current
builder, records its error if it has one, and resets builder and counter. -/
theorem doInsert_eq (env : Env) (s : Run) : ∃ r : FlushResult,
    doInsert env s =
      (reset { s.1 with
          errors := s.1.errors ++ (Flush.error { stmt := s.1.insert, result := r }).toList },
        s.2 ++ [{ stmt := s.1.insert, result := r }]) := by
  unfold doInsert
  cases hb : env.toSql s.1.insert with
  | error err => exact ⟨.buildFailed err, by simp [Flush.error]⟩
  | ok q =>
    cases hx : env.execContext (executed s.2) q with
    | some err => exact ⟨.execFailed q err, by simp [Flush.error, hx]⟩
    | none => exact ⟨.ok q, by simp [Flush.error, hx]⟩

theorem doInsert_cases (env : Env) (s : Run) :
    (∀ err, env.toSql s.1.insert = Except.error err →
        doInsert env s
          = (reset { s.1 with errors := s.1.errors ++ [err] },
              s.2 ++ [{ stmt := s.1.insert, result := .buildFailed err }]))
      ∧ (∀ q err, env.toSql s.1.insert = Except.ok q →
          env.execContext (executed s.2) q = some err →
          doInsert env s
            = (reset { s.1 with errors := s.1.errors ++ [err] },
                s.2 ++ [{ stmt := s.1.insert, result := .execFailed q err }]))
      ∧ (∀ q, env.toSql s.1.insert = Except.ok q →
          env.execContext (executed s.2) q = none →
          doInsert env s = (reset s.1, s.2 ++ [{ stmt := s.1.insert, result := .ok q }])) := by
  refine ⟨?_, ?_, ?_⟩
  · intro err hb
    unfold doInsert
    simp only [hb]
  · intro q err hb hx
    unfold doInsert
    simp only [hb, hx]
  · intro q hb hx
    unfold doInsert
    simp only [hb, hx]

theorem doInsert_log (env : Env) (s : Run) : ∃ f : Flush,
    (doInsert env s).2 = s.2 ++ [f] ∧ f.stmt = s.1.insert
      ∧ (doInsert env s).1.errors = s.1.errors ++ (Flush.error f).toList := by
  obtain ⟨r, hr⟩ := doInsert_eq env s
  exact ⟨{ stmt := s.1.insert, result := r }, by rw [hr], rfl, by rw [hr]; rfl⟩

theorem doInsert_rows (env : Env) (s : Run) : (doInsert env s).1.rows = 0 := by
  obtain ⟨r, hr⟩ := doInsert_eq env s
  rw [hr]; rfl

theorem doInsert_limit (env : Env) (s : Run) : (doInsert env s).1.limit = s.1.limit := by
  obtain ⟨r, hr⟩ := doInsert_eq env s
  rw [hr]; rfl

theorem doInsert_table (env : Env) (s : Run) : (doInsert env s).1.table = s.1.table := by
  obtain ⟨r, hr⟩ := doInsert_eq env s
  rw [hr]; rfl

theorem doInsert_columns (env : Env) (s : Run) :
    (doInsert env s).1.columns = s.1.columns := by
  obtain ⟨r, hr⟩ := doInsert_eq env s
  rw [hr]; rfl

theorem doInsert_insert (env : Env) (s : Run) :
    (doInsert env s).1.insert = newBuilder s.1.table s.1.columns := by
  obtain ⟨r, hr⟩ := doInsert_eq env s
  rw [hr]; rfl

theorem doInsert_inv (env : Env) (s : Run) (h : s.1.limit < 65536) :
    Inv (doInsert env s).1 := by
  refine ⟨?_, ?_, Or.inr (doInsert_rows env s)⟩
  · rw [doInsert_rows, doInsert_insert]; rfl
  · rw [doInsert_limit]; exact h

/-! ## The invariant -/

theorem addRow_rows {m : Insert} (h : Inv m) (vs : List Value) :
    (addRow m vs).rows = m.rows + 1 := by
  obtain ⟨_, hl, hr⟩ := h
  show (m.rows + 1) % 65536 = m.rows + 1
  apply Nat.mod_eq_of_lt
  omega

theorem addRow_values (m : Insert) (vs : List Value) :
    (addRow m vs).insert.values = m.insert.values ++ [vs] := rfl

theorem Values_inv (env : Env) (s : Run) (vs : List Value) (h : Inv s.1) :
    Inv (Values env s vs).1 := by
  have hrow := addRow_rows h vs
  obtain ⟨hc, hl, hr⟩ := h
  unfold Values
  split
  · exact doInsert_inv env _ hl
  · rename_i hlt
    have hlim : (addRow s.1 vs).limit = s.1.limit := rfl
    refine ⟨?_, hl, Or.inl ?_⟩
    · show (addRow s.1 vs).rows = (addRow s.1 vs).insert.values.length
      rw [hrow, addRow_values, List.length_append, hc]; rfl
    · show (addRow s.1 vs).rows < (addRow s.1 vs).limit
      omega

theorem finishRun_inv (env : Env) (s : Run) (h : Inv s.1) : Inv (finishRun env s).1 := by
  unfold finishRun
  split
  · exact doInsert_inv env _ h.2.1
  · exact h

theorem step_inv (env : Env) (s : Run) (c : Call) (h : Inv s.1) : Inv (step env s c).1 := by
  cases c with
  | values vs => exact Values_inv env s vs h
  | finish => exact finishRun_inv env s h

theorem runCalls_inv (env : Env) (calls : List Call) :
    ∀ s : Run, Inv s.1 → Inv (runCalls env s calls).1 := by
  induction calls with
  | nil => intro s h; exact h
  | cons c cs ih => intro s h; exact ih (step env s c) (step_inv env s c h)

/-! ## Conservation of rows and errors -/

theorem failures_append (a b : List Flush) : failures (a ++ b) = failures a ++ failures b := by
  simp [failures, List.filterMap_append]

theorem executed_append (a b : List Flush) : executed (a ++ b) = executed a ++ executed b := by
  simp [executed, List.filterMap_append]

theorem flushedRows_append (a b : List Flush) :
    flushedRows (a ++ b) = flushedRows a ++ flushedRows b := by
  simp [flushedRows]

theorem sizes_append (a b : List Flush) : sizes (a ++ b) = sizes a ++ sizes b := by
  simp [sizes]

theorem Grows.refl (s : Run) : Grows s s [] :=
  ⟨[], by simp, by simp [failures], by simp [flushedRows], rfl, rfl, rfl⟩

theorem Grows.trans {s t u : Run} {a b : List (List Value)}
    (h1 : Grows s t a) (h2 : Grows t u b) : Grows s u (a ++ b) := by
  obtain ⟨n1, l1, e1, r1, f1, g1, c1⟩ := h1
  obtain ⟨n2, l2, e2, r2, f2, g2, c2⟩ := h2
  refine ⟨n1 ++ n2, ?_, ?_, ?_, f2.trans f1, g2.trans g1, c2.trans c1⟩
  · rw [l2, l1, List.append_assoc]
  · rw [e2, e1, failures_append, List.append_assoc]
  · rw [flushedRows_append, List.append_assoc, r2, ← List.append_assoc, r1,
      List.append_assoc]

theorem doInsert_grows (env : Env) (s : Run) : Grows s (doInsert env s) [] := by
  obtain ⟨r, hr⟩ := doInsert_eq env s
  rw [hr]
  refine ⟨[{ stmt := s.1.insert, result := r }], rfl, ?_, ?_, rfl, rfl, rfl⟩
  · cases r <;> simp [failures, Flush.error, reset]
  · simp [flushedRows, Flush.rows, reset, newBuilder]

theorem addRow_grows (s : Run) (vs : List Value) : Grows s (addRow s.1 vs, s.2) [vs] :=
  ⟨[], by simp, by simp [failures, addRow], by simp [flushedRows, addRow_values],
    rfl, rfl, rfl⟩

theorem Values_grows (env : Env) (s : Run) (vs : List Value) :
    Grows s (Values env s vs) [vs] := by
  unfold Values
  split
  · exact (addRow_grows s vs).trans (doInsert_grows env _)
  · exact addRow_grows s vs

theorem finishRun_grows (env : Env) (s : Run) : Grows s (finishRun env s) [] := by
  unfold finishRun
  split
  · exact doInsert_grows env s
  · exact Grows.refl s

theorem step_grows (env : Env) (s : Run) (c : Call) :
    Grows s (step env s c) (Call.rowsOf [c]) := by
  cases c with
  | values vs => exact Values_grows env s vs
  | finish => exact finishRun_grows env s

theorem rowsOf_cons (c : Call) (cs : List Call) :
    Call.rowsOf (c :: cs) = Call.rowsOf [c] ++ Call.rowsOf cs := by
  cases c <;> simp [Call.rowsOf]

theorem runCalls_grows (env : Env) (calls : List Call) :
    ∀ s : Run, Grows s (runCalls env s calls) (Call.rowsOf calls) := by
  induction calls with
  | nil => intro s; exact Grows.refl s
  | cons c cs ih =>
    intro s
    rw [rowsOf_cons]
    exact (step_grows env s c).trans (ih (step env s c))

theorem addRows_eq_runCalls (env : Env) (rows : List (List Value)) :
    ∀ s : Run, addRows env s rows = runCalls env s (rows.map Call.values) := by
  induction rows with
  | nil => intro s; rfl
  | cons r rs ih => intro s; exact ih (Values env s r)

theorem rowsOf_map_values (rows : List (List Value)) :
    Call.rowsOf (rows.map Call.values) = rows := by
  induction rows with
  | nil => rfl
  | cons r rs ih => simp [Call.rowsOf, ih]

theorem addRows_grows (env : Env) (s : Run) (rows : List (List Value)) :
    Grows s (addRows env s rows) rows := by
  have h := runCalls_grows env (rows.map Call.values) s
  rw [rowsOf_map_values, ← addRows_eq_runCalls] at h
  exact h

theorem addRows_inv (env : Env) (s : Run) (rows : List (List Value)) (h : Inv s.1) :
    Inv (addRows env s rows).1 := by
  rw [addRows_eq_runCalls]
  exact runCalls_inv env _ s h

/-! ## The batches of a run of Values calls -/

theorem Values_flush (env : Env) (s : Run) (vs : List Value)
    (h : (addRow s.1 vs).rows ≥ (addRow s.1 vs).limit) :
    Values env s vs = doInsert env (addRow s.1 vs, s.2) := by
  unfold Values
  rw [if_pos h]

theorem Values_keep (env : Env) (s : Run) (vs : List Value)
    (h : ¬ (addRow s.1 vs).rows ≥ (addRow s.1 vs).limit) :
    Values env s vs = (addRow s.1 vs, s.2) := by
  unfold Values
  rw [if_neg h]

/-- From a state at rest with p rows pending below the threshold T, n more
Values calls make (p + n) / T flushes of exactly T rows each and leave
(p + n) % T rows pending. -/
theorem addRows_sizes (env : Env) (rows : List (List Value)) :
    ∀ s : Run, Inv s.1 → s.1.rows < s.1.limit →
      sizes (addRows env s rows).2
          = sizes s.2 ++ List.replicate ((s.1.rows + rows.length) / s.1.limit) s.1.limit
        ∧ (addRows env s rows).1.rows = (s.1.rows + rows.length) % s.1.limit
        ∧ (addRows env s rows).1.limit = s.1.limit := by
  induction rows with
  | nil =>
    intro s _ hlt
    simp [addRows, Nat.div_eq_of_lt hlt, Nat.mod_eq_of_lt hlt]
  | cons v vs ih =>
    intro s hinv hlt
    have hrow := addRow_rows hinv v
    have hlim : (addRow s.1 v).limit = s.1.limit := rfl
    have hpos : 0 < s.1.limit := by omega
    show sizes (addRows env (Values env s v) vs).2 = _
      ∧ (addRows env (Values env s v) vs).1.rows = _
      ∧ (addRows env (Values env s v) vs).1.limit = _
    by_cases hge : (addRow s.1 v).rows ≥ (addRow s.1 v).limit
    · have hT : s.1.rows + 1 = s.1.limit := by omega
      have hV := Values_flush env s v hge
      have hinv2 : Inv (Values env s v).1 := Values_inv env s v hinv
      have hr0 : (Values env s v).1.rows = 0 := by rw [hV]; exact doInsert_rows env _
      have hl0 : (Values env s v).1.limit = s.1.limit := by
        rw [hV]; exact doInsert_limit env _
      obtain ⟨f, hlog, hstmt, _⟩ := doInsert_log env (addRow s.1 v, s.2)
      have hsz : sizes (Values env s v).2 = sizes s.2 ++ [s.1.limit] := by
        rw [hV, hlog, sizes_append]
        congr 1
        show [f.stmt.values.length] = _
        rw [hstmt]
        show [(addRow s.1 v).insert.values.length] = _
        rw [addRow_values, List.length_append, ← hinv.1]
        simp [hT]
      obtain ⟨i1, i2, i3⟩ := ih (Values env s v) hinv2 (by rw [hr0, hl0]; exact hpos)
      rw [hr0, hl0] at i1 i2
      have hlen : s.1.rows + (v :: vs).length = s.1.limit + vs.length := by
        simp only [List.length_cons]; omega
      refine ⟨?_, ?_, i3.trans hl0⟩
      · rw [i1, hsz, hlen, Nat.add_div_left _ hpos, List.replicate_succ]
        simp
      · rw [i2, hlen, Nat.add_mod_left]
        simp
    · have hV := Values_keep env s v hge
      have hinv2 : Inv (Values env s v).1 := Values_inv env s v hinv
      have hr1 : (Values env s v).1.rows = s.1.rows + 1 := by rw [hV]; exact hrow
      have hl1 : (Values env s v).1.limit = s.1.limit := by rw [hV]; rfl
      have hlog : (Values env s v).2 = s.2 := by rw [hV]
      obtain ⟨i1, i2, i3⟩ := ih (Values env s v) hinv2 (by rw [hr1, hl1]; omega)
      rw [hr1, hl1, hlog] at i1
      rw [hr1, hl1] at i2
      have hlen : s.1.rows + (v :: vs).length = s.1.rows + 1 + vs.length := by
        simp only [List.length_cons]; omega
      exact ⟨by rw [i1, hlen], by rw [i2, hlen], i3.trans hl1⟩

theorem sizes_length (log : List Flush) : (sizes log).length = log.length := by
  simp [sizes]

theorem toUint16_limit (c : Nat) (h1 : 0 < c) (h2 : c ≤ 999) :
    toUint16 (999 / (c : Int) - 1) = 999 / c - 1 := by
  have hq : 1 ≤ 999 / c := (Nat.one_le_div_iff h1).mpr h2
  have hq2 : 999 / c ≤ 999 := Nat.div_le_self 999 c
  have hcast : (999 : Int) / (c : Int) = ((999 / c : Nat) : Int) := by norm_cast
  have h := toUint16_of_range (999 / (c : Int) - 1) (by rw [hcast]; omega)
    (by rw [hcast]; omega)
  rw [hcast] at h ⊢
  omega

theorem rowsAB_length (n : Nat) : (rowsAB n).length = n := by
  simp [rowsAB]

/-! ## Finish -/

theorem finishRun_rows (env : Env) (s : Run) : (finishRun env s).1.rows = 0 := by
  unfold finishRun
  split
  · exact doInsert_rows env s
  · omega

/-- After the flush of Finish a receiver at rest has an empty builder. -/
theorem finishRun_values (env : Env) (s : Run) (h : Inv s.1) :
    (finishRun env s).1.insert.values = [] := by
  have hi := (finishRun_inv env s h).1
  rw [finishRun_rows] at hi
  exact List.length_eq_zero.mp hi.symm

/-- A run of Values calls and a Finish call on a new receiver: the log holds
the rows passed, in order, and the error list holds the errors of the log. -/
theorem finish_addRows (env : Env) {table : String} {columns : List String} {m : Insert}
    (rows : List (List Value)) (hm : NewInsert table columns = some m) :
    flushedRows (finishRun env (addRows env (m, []) rows)).2 = rows
      ∧ (finishRun env (addRows env (m, []) rows)).1.errors
          = failures (finishRun env (addRows env (m, []) rows)).2 := by
  have hinv : Inv (addRows env (m, []) rows).1 := addRows_inv env _ rows (NewInsert_inv hm)
  have hv := finishRun_values env _ hinv
  obtain ⟨_, _, _, _, _, hi, he⟩ := NewInsert_some hm
  obtain ⟨new, hl, hE, hR, _⟩ :=
    (addRows_grows env (m, []) rows).trans (finishRun_grows env (addRows env (m, []) rows))
  simp only [List.nil_append, List.append_nil] at hl hE hR
  rw [hv, hi] at hR
  rw [he] at hE
  simp only [List.nil_append, List.append_nil, newBuilder] at hE hR
  rw [hl]
  exact ⟨hR, hE⟩

theorem doInsert_rendered (env : Env) (s : Run) (h : Rendered env s.2) :
    Rendered env (doInsert env s).2 := by
  intro f hf
  unfold doInsert at hf
  cases hb : env.toSql s.1.insert with
  | error err =>
    simp only [hb, List.mem_append, List.mem_singleton] at hf
    rcases hf with hf | hf
    · exact h f hf
    · subst hf; simp [Flush.query, hb, Except.toOption]
  | ok q =>
    cases hx : env.execContext (executed s.2) q with
    | some err =>
      simp only [hb, hx, List.mem_append, List.mem_singleton] at hf
      rcases hf with hf | hf
      · exact h f hf
      · subst hf; simp [Flush.query, hb, Except.toOption]
    | none =>
      simp only [hb, hx, List.mem_append, List.mem_singleton] at hf
      rcases hf with hf | hf
      · exact h f hf
      · subst hf; simp [Flush.query, hb, Except.toOption]

theorem step_rendered (env : Env) (s : Run) (c : Call) (h : Rendered env s.2) :
    Rendered env (step env s c).2 := by
  cases c with
  | values vs =>
    show Rendered env (Values env s vs).2
    unfold Values
    split
    · exact doInsert_rendered env _ h
    · exact h
  | finish =>
    show Rendered env (finishRun env s).2
    unfold finishRun
    split
    · exact doInsert_rendered env _ h
    · exact h

theorem runCalls_rendered (env : Env) (calls : List Call) :
    ∀ s : Run, Rendered env s.2 → Rendered env (runCalls env s calls).2 := by
  induction calls with
  | nil => intro s h; exact h
  | cons c cs ih => intro s h; exact ih (step env s c) (step_rendered env s c h)

theorem executed_of_rendered (env : Env) (log : List Flush) (h : Rendered env log) :
    executed log = log.filterMap fun f => (env.toSql f.stmt).toOption := by
  unfold executed
  induction log with
  | nil => rfl
  | cons f fs ih =>
    have hf : f.query = (env.toSql f.stmt).toOption := h f (List.mem_cons_self f fs)
    have hfs : Rendered env fs := fun g hg => h g (List.mem_cons_of_mem f hg)
    simp only [List.filterMap_cons, hf, ih hfs]

theorem finishResult_of_errors {m : Insert} {e : Err} {es : List Err}
    (h : m.errors = es ++ [e]) :
    finishResult m = some { count := es.length + 1, errs := es ++ [e] } := by
  unfold finishResult
  rw [h, if_neg (by simp)]
  simp

/-- The sizes of the flushes of a run of Values calls and a Finish call on a
new receiver with a threshold T ≥ 1. -/
theorem finish_sizes (env : Env) {table : String} {columns : List String} {m : Insert}
    (rows : List (List Value)) (hm : NewInsert table columns = some m) (hT : 1 ≤ m.limit) :
    sizes (finishRun env (addRows env (m, []) rows)).2
      = List.replicate (rows.length / m.limit) m.limit
        ++ (if rows.length % m.limit > 0 then [rows.length % m.limit] else []) := by
  have hinv := NewInsert_inv hm
  have hr0 : m.rows = 0 := (NewInsert_some hm).2.1
  obtain ⟨h1, h2, _⟩ := addRows_sizes env rows (m, []) hinv (by show m.rows < m.limit; omega)
  simp only [hr0, Nat.zero_add] at h1 h2
  have hinv2 : Inv (addRows env (m, []) rows).1 := addRows_inv env _ rows hinv
  unfold finishRun
  rw [h2]
  by_cases hz : rows.length % m.limit > 0
  · rw [if_pos hz, if_pos hz]
    obtain ⟨f, hf, hstmt, _⟩ := doInsert_log env (addRows env (m, []) rows)
    rw [hf, sizes_append, h1]
    simp only [sizes, List.map_nil, List.nil_append, List.map_cons, Flush.rows, hstmt]
    rw [← hinv2.1, h2]
  · rw [if_neg hz, if_neg hz, h1]
    simp [sizes]

theorem failures_of_ok (log : List Flush) (h : ∀ f ∈ log, ∃ q, f.result = FlushResult.ok q) :
    failures log = [] := by
  unfold failures
  rw [List.filterMap_eq_nil_iff]
  intro f hf
  obtain ⟨q, hq⟩ := h f hf
  simp [Flush.error, hq]

theorem failures_nil_iff (log : List Flush) :
    failures log = [] ↔ ∀ f ∈ log, ∃ q, f.result = FlushResult.ok q := by
  constructor
  · intro h f hf
    unfold failures at h
    rw [List.filterMap_eq_nil_iff] at h
    have he := h f hf
    unfold Flush.error at he
    cases hr : f.result with
    | buildFailed err => rw [hr] at he; cases he
    | execFailed q err => rw [hr] at he; cases he
    | ok q => exact ⟨q, rfl⟩
  · exact failures_of_ok log

theorem executed_length (env : Env) (log : List Flush) (h : Rendered env log)
    (hb : ∀ b, ∃ q, env.toSql b = Except.ok q) : (executed log).length = log.length := by
  unfold executed
  induction log with
  | nil => rfl
  | cons f fs ih =>
    have hf : f.query = (env.toSql f.stmt).toOption := h f (List.mem_cons_self f fs)
    have hfs : Rendered env fs := fun g hg => h g (List.mem_cons_of_mem f hg)
    obtain ⟨q, hq⟩ := hb f.stmt
    rw [hq] at hf
    simp only [List.filterMap_cons, hf, Except.toOption, List.length_cons, ih hfs]

theorem executed_length_of_built (env : Env) (log : List Flush) (h : Rendered env log)
    (hb : ∀ f ∈ log, ∃ q, env.toSql f.stmt = Except.ok q) :
    (executed log).length = log.length := by
  unfold executed
  induction log with
  | nil => rfl
  | cons f fs ih =>
    have hf : f.query = (env.toSql f.stmt).toOption := h f (List.mem_cons_self f fs)
    have hfs : Rendered env fs := fun g hg => h g (List.mem_cons_of_mem f hg)
    have hbs : ∀ g ∈ fs, ∃ q, env.toSql g.stmt = Except.ok q :=
      fun g hg => hb g (List.mem_cons_of_mem f hg)
    obtain ⟨q, hq⟩ := hb f (List.mem_cons_self f fs)
    rw [hq] at hf
    simp only [List.filterMap_cons, hf, Except.toOption, List.length_cons, ih hfs hbs]

theorem finish_rendered (env : Env) (m : Insert) (rows : List (List Value)) :
    Rendered env (finishRun env (addRows env (m, []) rows)).2 := by
  show Rendered env (step env (addRows env (m, []) rows) Call.finish).2
  apply step_rendered
  rw [addRows_eq_runCalls]
  exact runCalls_rendered env _ (m, []) (fun f hf => by cases hf)

theorem finish_executed_length (env : Env) (m : Insert) (rows : List (List Value))
    (hb : ∀ f ∈ (Finish env (addRows env (m, []) rows)).1.2,
      ∃ q, env.toSql f.stmt = Except.ok q) :
    (executed (Finish env (addRows env (m, []) rows)).1.2).length
      = (Finish env (addRows env (m, []) rows)).1.2.length :=
  executed_length_of_built env _ (finish_rendered env m rows) hb

theorem addRows_append (env : Env) (s : Run) (a b : List (List Value)) :
    addRows env s (a ++ b) = addRows env (addRows env s a) b := by
  simp [addRows, List.foldl_append]

/-! ## Rows held by reference -/

theorem refNewInsert_read (heap : Heap) (table : String) (columns : List String) :
    (refNewInsert table columns).map (RefInsert.read heap) = NewInsert table columns := by
  unfold refNewInsert NewInsert
  split <;> rfl

theorem refAddRow_read (heap : Heap) (m : RefInsert) (ref : Nat) :
    (refAddRow m ref).read heap = addRow (m.read heap) (heap ref) := by
  simp [refAddRow, addRow, RefInsert.read, RefBuilder.read, RefBuilder.Values,
    InsertBuilder.Values]

theorem refDoInsert_heap (env : Env) (s : RefRun) : (refDoInsert env s).heap = s.heap := by
  unfold refDoInsert
  split
  · rfl
  · split <;> rfl

/-- The flush of the receiver holding slices is the flush of the receiver
holding the elements the slices have at that moment. -/
theorem refDoInsert_read (env : Env) (s : RefRun) :
    (refDoInsert env s).read = doInsert env s.read := by
  obtain ⟨c1, c2, c3⟩ := doInsert_cases env s.read
  cases hb : env.toSql (s.m.insert.read s.heap) with
  | error err =>
    rw [c1 err hb]
    unfold refDoInsert
    simp only [hb]
    rfl
  | ok q =>
    cases hx : env.execContext (executed s.log) q with
    | some err =>
      rw [c2 q err hb hx]
      unfold refDoInsert
      simp only [hb, hx]
      rfl
    | none =>
      rw [c3 q hb hx]
      unfold refDoInsert
      simp only [hb, hx]
      rfl

theorem refValues_heap (env : Env) (s : RefRun) (ref : Nat) :
    (refValues env s ref).heap = s.heap := by
  unfold refValues
  split
  · rw [refDoInsert_heap]
  · rfl

theorem refValues_read (env : Env) (s : RefRun) (ref : Nat) :
    (refValues env s ref).read = Values env s.read (s.heap ref) := by
  have ha : ({ s with m := refAddRow s.m ref } : RefRun).read
      = (addRow s.read.1 (s.heap ref), s.read.2) := by
    show ((refAddRow s.m ref).read s.heap, s.log) = _
    rw [refAddRow_read]
    rfl
  have hr : (refAddRow s.m ref).rows = (addRow s.read.1 (s.heap ref)).rows := rfl
  have hl : (refAddRow s.m ref).limit = (addRow s.read.1 (s.heap ref)).limit := rfl
  unfold refValues Values
  rw [hr, hl]
  split
  · rw [refDoInsert_read, ha]
  · exact ha

theorem refFinishRun_heap (env : Env) (s : RefRun) : (refFinishRun env s).heap = s.heap := by
  unfold refFinishRun
  split
  · rw [refDoInsert_heap]
  · rfl

theorem refFinishRun_read (env : Env) (s : RefRun) :
    (refFinishRun env s).read = finishRun env s.read := by
  have hr : s.m.rows = s.read.1.rows := rfl
  unfold refFinishRun finishRun
  rw [hr]
  split
  · rw [refDoInsert_read]
  · rfl

theorem refFinish_read (env : Env) (s : RefRun) :
    ((refFinish env s).1.read, (refFinish env s).2) = Finish env s.read := by
  show ((refFinishRun env s).read, finishResult (refFinishRun env s).read.1) = _
  rw [refFinishRun_read]
  rfl

/-- An assignment to a slice the builder does not hold changes nothing the
receiver can read. -/
theorem write_read (s : RefRun) (ref i : Nat) (v : Value) (h : ref ∉ s.m.insert.values) :
    ({ s with heap := s.heap.write ref i v } : RefRun).read = s.read := by
  have hmap : s.m.insert.values.map (s.heap.write ref i v) = s.m.insert.values.map s.heap := by
    apply List.map_congr_left
    intro a ha
    have hne : a ≠ ref := fun e => h (e ▸ ha)
    simp [Heap.write, hne]
  show ((s.m.read (s.heap.write ref i v)), s.log) = (s.m.read s.heap, s.log)
  unfold RefInsert.read RefBuilder.read
  rw [hmap]

/-- When the caller never assigns to a slice the builder still holds, the run
with rows by reference is, read through the memory, the run with rows by
value on the same method calls, each Values call passing the elements its
slice held at the call. -/
theorem refRun_read (env : Env) (calls : List RefCall) :
    ∀ s : RefRun, refSafe env s calls = true →
      (refRun env s calls).read = runCalls env s.read (callsOf s.heap calls) := by
  induction calls with
  | nil => intro s _; rfl
  | cons c cs ih =>
    intro s hs
    cases c with
    | values ref =>
      have h := ih (refStep env s (.values ref)) hs
      show (refRun env (refStep env s (.values ref)) cs).read = _
      rw [h]
      show runCalls env (refValues env s ref).read (callsOf (refValues env s ref).heap cs) = _
      rw [refValues_read, refValues_heap]
      rfl
    | finish =>
      have h := ih (refStep env s .finish) hs
      show (refRun env (refStep env s .finish) cs).read = _
      rw [h]
      show runCalls env (refFinishRun env s).read (callsOf (refFinishRun env s).heap cs) = _
      rw [refFinishRun_read, refFinishRun_heap]
      rfl
    | write ref i v =>
      have hs2 : (decide (ref ∉ s.m.insert.values)
          && refSafe env (refStep env s (.write ref i v)) cs) = true := hs
      rw [Bool.and_eq_true] at hs2
      have h := ih (refStep env s (.write ref i v)) hs2.2
      show (refRun env (refStep env s (.write ref i v)) cs).read = _
      rw [h]
      show runCalls env ({ s with heap := s.heap.write ref i v } : RefRun).read
        (callsOf (s.heap.write ref i v) cs) = _
      rw [write_read s ref i v (of_decide_eq_true hs2.1)]
      rfl

theorem rowsOf_callsOf (calls : List RefCall) :
    ∀ heap : Heap, Call.rowsOf (callsOf heap calls) = passedRows heap calls := by
  induction calls with
  | nil => intro heap; rfl
  | cons c cs ih =>
    intro heap
    cases c with
    | values ref => simp [callsOf, passedRows, Call.rowsOf, ih]
    | finish => simp [callsOf, passedRows, Call.rowsOf, ih]
    | write ref i v => simp [callsOf, passedRows, ih]

/-- A run of any method calls and a closing Finish call on a new receiver: the
log holds the rows passed, in order. -/
theorem finish_runCalls (env : Env) {table : String} {columns : List String} {m : Insert}
    (calls : List Call) (hm : NewInsert table columns = some m) :
    flushedRows (finishRun env (runCalls env (m, []) calls)).2 = Call.rowsOf calls := by
  have hinv : Inv (runCalls env (m, []) calls).1 :=
    runCalls_inv env calls (m, []) (NewInsert_inv hm)
  have hv := finishRun_values env _ hinv
  obtain ⟨_, _, _, _, _, hi, _⟩ := NewInsert_some hm
  obtain ⟨new, hl, _, hR, _⟩ :=
    (runCalls_grows env calls (m, [])).trans (finishRun_grows env (runCalls env (m, []) calls))
  simp only [List.nil_append, List.append_nil] at hl hR
  rw [hv, hi] at hR
  simp only [List.nil_append, List.append_nil, newBuilder] at hR
  rw [hl]
  exact hR

theorem handedRows_of_built (env : Env) (log : List Flush) (h : Rendered env log)
    (hb : ∀ f ∈ log, ∃ q, env.toSql f.stmt = Except.ok q) :
    handedRows log = flushedRows log := by
  unfold handedRows
  congr 1
  rw [List.filter_eq_self]
  intro f hf
  obtain ⟨q, hq⟩ := hb f hf
  rw [h f hf, hq]
  rfl

/-! ## Builders without a table name -/

theorem finish_eq_runCalls (env : Env) (s : Run) (rows : List (List Value)) :
    (Finish env (addRows env s rows)).1
      = runCalls env s (rows.map Call.values ++ [Call.finish]) := by
  show step env (addRows env s rows) Call.finish = _
  rw [addRows_eq_runCalls]
  unfold runCalls
  rw [List.foldl_append]
  rfl

theorem step_into (env : Env) (s : Run) (c : Call) (t : String)
    (h : s.1.table = t ∧ s.1.insert.into = t ∧ ∀ f ∈ s.2, f.stmt.into = t) :
    (step env s c).1.table = t ∧ (step env s c).1.insert.into = t
      ∧ ∀ f ∈ (step env s c).2, f.stmt.into = t := by
  obtain ⟨ht, hi, hlog⟩ := h
  have hflush : ∀ u : Run, u.1.table = t → u.1.insert.into = t →
      (∀ f ∈ u.2, f.stmt.into = t) →
      (doInsert env u).1.table = t ∧ (doInsert env u).1.insert.into = t
        ∧ ∀ f ∈ (doInsert env u).2, f.stmt.into = t := by
    intro u hut hui hul
    obtain ⟨f, hf, hstmt, _⟩ := doInsert_log env u
    refine ⟨by rw [doInsert_table, hut], by rw [doInsert_insert]; exact hut, ?_⟩
    rw [hf]
    intro g hg
    rcases List.mem_append.mp hg with hg | hg
    · exact hul g hg
    · rw [List.mem_singleton.mp hg, hstmt]
      exact hui
  cases c with
  | values vs =>
    show (Values env s vs).1.table = t ∧ (Values env s vs).1.insert.into = t
      ∧ ∀ f ∈ (Values env s vs).2, f.stmt.into = t
    unfold Values
    split
    · exact hflush (addRow s.1 vs, s.2) ht hi hlog
    · exact ⟨ht, hi, hlog⟩
  | finish =>
    show (finishRun env s).1.table = t ∧ (finishRun env s).1.insert.into = t
      ∧ ∀ f ∈ (finishRun env s).2, f.stmt.into = t
    unfold finishRun
    split
    · exact hflush s ht hi hlog
    · exact ⟨ht, hi, hlog⟩

theorem runCalls_into (env : Env) (t : String) (calls : List Call) :
    ∀ s : Run, (s.1.table = t ∧ s.1.insert.into = t ∧ ∀ f ∈ s.2, f.stmt.into = t) →
      ∀ f ∈ (runCalls env s calls).2, f.stmt.into = t := by
  induction calls with
  | nil => intro s h; exact h.2.2
  | cons c cs ih => intro s h; exact ih (step env s c) (step_into env s c t h)

/-- With an empty table name no flush hands a statement to the database. -/
theorem emptyTable_query (m : Insert) (calls : List Call)
    (ht : m.table = "") (hi : m.insert.into = "") :
    ∀ f ∈ (runCalls emptyTableEnv (m, []) calls).2, f.query = none := by
  intro f hf
  have hinto := runCalls_into emptyTableEnv "" calls (m, [])
    ⟨ht, hi, fun g hg => by cases hg⟩ f hf
  rw [runCalls_rendered emptyTableEnv calls (m, []) (fun g hg => by cases hg) f hf]
  simp [emptyTableEnv, hinto, Except.toOption]

theorem finish_log_sizes (env : Env) {table : String} {columns : List String} {m : Insert}
    (rows : List (List Value)) (hm : NewInsert table columns = some m) (hT : 1 ≤ m.limit) :
    sizes (Finish env (addRows env (m, []) rows)).1.2
      = List.replicate (rows.length / m.limit) m.limit
        ++ (if rows.length % m.limit > 0 then [rows.length % m.limit] else []) :=
  finish_sizes env rows hm hT

/-- With an empty table name a run of Values calls and a Finish call executes
nothing, and Finish returns an error as soon as one row was passed. -/
theorem emptyTable_finish {columns : List String} {m : Insert}
    (rows : List (List Value)) (hm : NewInsert "" columns = some m) (ht : m.table = "") :
    executed (Finish emptyTableEnv (addRows emptyTableEnv (m, []) rows)).1.2 = []
      ∧ (rows ≠ [] → (Finish emptyTableEnv (addRows emptyTableEnv (m, []) rows)).2 ≠ none) := by
  have hi : m.insert.into = "" := by
    rw [(NewInsert_some hm).2.2.2.2.2.1]
    rfl
  have hq : ∀ f ∈ (Finish emptyTableEnv (addRows emptyTableEnv (m, []) rows)).1.2,
      f.query = none := by
    rw [finish_eq_runCalls]
    exact emptyTable_query m _ ht hi
  constructor
  · unfold executed
    rw [List.filterMap_eq_nil_iff]
    exact hq
  · intro hrows hnil
    obtain ⟨hall, herr⟩ := finish_addRows emptyTableEnv rows hm
    have hq2 : ∀ f ∈ (finishRun emptyTableEnv (addRows emptyTableEnv (m, []) rows)).2,
        f.query = none := hq
    have hnil2 : finishResult (finishRun emptyTableEnv
        (addRows emptyTableEnv (m, []) rows)).1 = none := hnil
    unfold finishResult at hnil2
    split at hnil2
    · rename_i hlen
      rw [herr] at hlen
      have hok := (failures_nil_iff _).mp (List.length_eq_zero.mp hlen)
      have hne : (finishRun emptyTableEnv (addRows emptyTableEnv (m, []) rows)).2 ≠ [] := by
        intro h0
        rw [h0] at hall
        exact hrows hall.symm
      obtain ⟨f, hf⟩ := List.exists_mem_of_ne_nil _ hne
      obtain ⟨q, hr⟩ := hok f hf
      have hnone := hq2 f hf
      unfold Flush.query at hnone
      rw [hr] at hnone
      cases hnone
    · cases hnil2

/-! ## The claims -/

/-- C1, refuted as stated: with 1000 columns the quotient 999/1000 is 0, the
int value 0 - 1 is converted to uint16, and the threshold is 65535, not -1. -/
theorem C1_counterexample :
    ∃ m, NewInsert "t" (List.replicate 1000 "c") = some m
      ∧ m.limit = 65535
      ∧ (m.limit : Int) ≠ 999 / (((List.replicate 1000 "c").length : Nat) : Int) - 1 := by
  refine ⟨_, NewInsert_of_pos "t" _ (by rw [List.length_replicate]; decide), ?_, ?_⟩ <;>
    simp only [List.length_replicate] <;> decide

/-- C1, amended: for every column count C with 1 ≤ C ≤ 999 NewInsert returns a
receiver whose limit field equals floor(999/C) - 1. -/
theorem C1_threshold (table : String) (columns : List String)
    (h1 : 0 < columns.length) (h2 : columns.length ≤ 999) :
    ∃ m, NewInsert table columns = some m
      ∧ (m.limit : Int) = 999 / (columns.length : Int) - 1 := by
  refine ⟨_, NewInsert_of_pos table columns h1, ?_⟩
  have hq : 1 ≤ 999 / columns.length := (Nat.one_le_div_iff h1).mpr h2
  have hcast : (999 : Int) / (columns.length : Int) = ((999 / columns.length : Nat) : Int) := by
    norm_cast
  show ((toUint16 (999 / (columns.length : Int) - 1) : Nat) : Int) = _
  rw [toUint16_limit _ h1 h2, hcast]
  omega

theorem C1_threshold_witness :
    0 < ["a", "b"].length ∧ ["a", "b"].length ≤ 999
      ∧ ∃ m, NewInsert "t" ["a", "b"] = some m
        ∧ (m.limit : Int) = 999 / ((["a", "b"].length : Nat) : Int) - 1 :=
  ⟨by decide, by decide, C1_threshold "t" ["a", "b"] (by decide) (by decide)⟩

/-- C2: on the receiver made by NewInsert (so C > 0) with threshold T, after
T*k + r Values calls with r < T exactly k flushes have been made, whatever
their outcomes, and the Finish call that follows makes exactly one more when
r > 0 and none when r = 0. -/
theorem C2_flush_count (env : Env) (table : String) (columns : List String) (m : Insert)
    (rows : List (List Value)) (k r : Nat)
    (hm : NewInsert table columns = some m)
    (hr : r < m.limit) (hn : rows.length = m.limit * k + r) :
    (addRows env (m, []) rows).2.length = k
      ∧ (Finish env (addRows env (m, []) rows)).1.2.length
          = (addRows env (m, []) rows).2.length + (if r > 0 then 1 else 0) := by
  have hinv := NewInsert_inv hm
  have hr0 : m.rows = 0 := (NewInsert_some hm).2.1
  have hpos : 0 < m.limit := by omega
  obtain ⟨h1, h2, _⟩ := addRows_sizes env rows (m, []) hinv (by show m.rows < m.limit; omega)
  simp only [hr0, Nat.zero_add, hn] at h1 h2
  rw [Nat.mul_add_mod, Nat.mod_eq_of_lt hr] at h2
  rw [Nat.mul_add_div hpos, Nat.div_eq_of_lt hr, Nat.add_zero] at h1
  have hlen : (addRows env (m, []) rows).2.length = k := by
    rw [← sizes_length, h1]; simp [sizes]
  refine ⟨hlen, ?_⟩
  show (finishRun env (addRows env (m, []) rows)).2.length = _
  unfold finishRun
  rw [h2]
  by_cases hz : r > 0
  · rw [if_pos hz, if_pos hz]
    obtain ⟨f, hf, _⟩ := doInsert_log env (addRows env (m, []) rows)
    rw [hf]; simp
  · rw [if_neg hz, if_neg hz]; rfl

theorem C2_flush_count_witness :
    NewInsert "t" ["a", "b"] = some insertAB
      ∧ 2 < insertAB.limit
      ∧ (rowsAB 500).length = insertAB.limit * 1 + 2
      ∧ (addRows failEnv (insertAB, []) (rowsAB 500)).2.length = 1
      ∧ (Finish failEnv (addRows failEnv (insertAB, []) (rowsAB 500))).1.2.length
          = (addRows failEnv (insertAB, []) (rowsAB 500)).2.length
            + (if 2 > 0 then 1 else 0) :=
  ⟨rfl, by decide, rowsAB_length 500,
    C2_flush_count failEnv "t" ["a", "b"] insertAB (rowsAB 500) 1 2 rfl (by decide)
      (rowsAB_length 500)⟩

/-- C3, refuted as stated. First, the builder keeps the slice it was given:
when the caller passes a slice holding 1, 2, assigns 3, 6 to it and passes it
again, the rows passed are (1, 2), (3, 6) but the flush holds (3, 6), (3, 6)
and the statement handed to the database has the arguments 3, 6, 3, 6. Second,
a flush whose ToSql fails hands nothing to the database: with an empty table
name the row passed is in the flushed builder and in no statement. -/
theorem C3_counterexample :
    (refNewInsert "t" ["a", "b"] = some refInsertAB
        ∧ passedRows heap12
            [RefCall.values 0, RefCall.write 0 0 (Value.int 3),
              RefCall.write 0 1 (Value.int 6), RefCall.values 0]
          = [[Value.int 1, Value.int 2], [Value.int 3, Value.int 6]]
        ∧ flushedRows (refFinish okEnv (refRun okEnv
            { heap := heap12, m := refInsertAB, log := [] }
            [RefCall.values 0, RefCall.write 0 0 (Value.int 3),
              RefCall.write 0 1 (Value.int 6), RefCall.values 0])).1.log
          = [[Value.int 3, Value.int 6], [Value.int 3, Value.int 6]]
        ∧ (executed (refFinish okEnv (refRun okEnv
            { heap := heap12, m := refInsertAB, log := [] }
            [RefCall.values 0, RefCall.write 0 0 (Value.int 3),
              RefCall.write 0 1 (Value.int 6), RefCall.values 0])).1.log).map Query.args
          = [[Value.int 3, Value.int 6, Value.int 3, Value.int 6]])
      ∧ (∃ m, refNewInsert "" ["a", "b"] = some m
        ∧ refSafe emptyTableEnv { heap := heap12, m := m, log := [] } [RefCall.values 0] = true
        ∧ passedRows heap12 [RefCall.values 0] = [[Value.int 1, Value.int 2]]
        ∧ flushedRows (refFinish emptyTableEnv (refRun emptyTableEnv
            { heap := heap12, m := m, log := [] } [RefCall.values 0])).1.log
          = [[Value.int 1, Value.int 2]]
        ∧ handedRows (refFinish emptyTableEnv (refRun emptyTableEnv
            { heap := heap12, m := m, log := [] } [RefCall.values 0])).1.log = []
        ∧ executed (refFinish emptyTableEnv (refRun emptyTableEnv
            { heap := heap12, m := m, log := [] } [RefCall.values 0])).1.log = []) := by
  refine ⟨⟨rfl, ?_, ?_, ?_⟩, ⟨_, rfl, ?_, ?_, ?_, ?_, ?_⟩⟩ <;> decide

/-- C3, amended: for every sequence of Values and Finish calls on the receiver
made by NewInsert, followed by Finish, during which the caller does not assign
to a slice that the builder still holds: the rows of the builders flushed
(automatic flushes and the final one), concatenated in flush order, are
exactly the rows passed to Values in call order; every flush hands to the
database the statement ToSql made of its builder, and nothing when ToSql
failed; so when ToSql returns a statement for every flushed builder, the rows
of the statements handed to the database are exactly the rows passed, none
omitted, repeated or out of order. -/
theorem C3_rows_conserved (env : Env) (heap : Heap) (table : String) (columns : List String)
    (m : RefInsert) (calls : List RefCall)
    (hm : refNewInsert table columns = some m)
    (hsafe : refSafe env { heap := heap, m := m, log := [] } calls = true) :
    flushedRows (refFinish env (refRun env { heap := heap, m := m, log := [] } calls)).1.log
        = passedRows heap calls
      ∧ (∀ f ∈ (refFinish env (refRun env { heap := heap, m := m, log := [] } calls)).1.log,
          f.query = (env.toSql f.stmt).toOption)
      ∧ executed (refFinish env (refRun env { heap := heap, m := m, log := [] } calls)).1.log
          = (refFinish env (refRun env { heap := heap, m := m, log := [] } calls)).1.log.filterMap
              (fun f => (env.toSql f.stmt).toOption)
      ∧ ((∀ f ∈ (refFinish env (refRun env { heap := heap, m := m, log := [] } calls)).1.log,
            ∃ q, env.toSql f.stmt = Except.ok q) →
          handedRows (refFinish env (refRun env { heap := heap, m := m, log := [] } calls)).1.log
            = passedRows heap calls) := by
  have hnew : NewInsert table columns = some (m.read heap) := by
    rw [← refNewInsert_read heap, hm]
    rfl
  have hlog : (refFinish env (refRun env { heap := heap, m := m, log := [] } calls)).1.log
      = (finishRun env (runCalls env (m.read heap, []) (callsOf heap calls))).2 := by
    show (refFinishRun env (refRun env { heap := heap, m := m, log := [] } calls)).read.2 = _
    rw [refFinishRun_read, refRun_read env calls _ hsafe]
    rfl
  have hrows : flushedRows
      (refFinish env (refRun env { heap := heap, m := m, log := [] } calls)).1.log
      = passedRows heap calls := by
    rw [hlog, finish_runCalls env _ hnew, rowsOf_callsOf]
  have hren : Rendered env
      (refFinish env (refRun env { heap := heap, m := m, log := [] } calls)).1.log := by
    rw [hlog]
    show Rendered env
      (step env (runCalls env (m.read heap, []) (callsOf heap calls)) Call.finish).2
    apply step_rendered
    exact runCalls_rendered env _ (m.read heap, []) (fun f hf => by cases hf)
  refine ⟨hrows, hren, executed_of_rendered env _ hren, ?_⟩
  intro hb
  rw [handedRows_of_built env _ hren hb, hrows]

theorem C3_rows_conserved_witness :
    refNewInsert "t" ["a", "b"] = some refInsertAB
      ∧ refSafe okEnv { heap := heap12, m := refInsertAB, log := [] }
          [RefCall.values 0, RefCall.write 5 0 (Value.int 3), RefCall.values 1,
            RefCall.finish, RefCall.write 0 1 (Value.int 6), RefCall.values 0] = true
      ∧ flushedRows (refFinish okEnv (refRun okEnv
          { heap := heap12, m := refInsertAB, log := [] }
          [RefCall.values 0, RefCall.write 5 0 (Value.int 3), RefCall.values 1,
            RefCall.finish, RefCall.write 0 1 (Value.int 6), RefCall.values 0])).1.log
        = passedRows heap12
          [RefCall.values 0, RefCall.write 5 0 (Value.int 3), RefCall.values 1,
            RefCall.finish, RefCall.write 0 1 (Value.int 6), RefCall.values 0] :=
  ⟨rfl, by decide,
    (C3_rows_conserved okEnv heap12 "t" ["a", "b"] refInsertAB
      [RefCall.values 0, RefCall.write 5 0 (Value.int 3), RefCall.values 1,
        RefCall.finish, RefCall.write 0 1 (Value.int 6), RefCall.values 0]
      rfl (by decide)).1⟩

/-- C4: for a run of Values calls on the receiver made by NewInsert, followed
by Finish: when exactly N ≥ 1 flushes of the run failed (at ToSql or at
ExecContext), Finish returns the error made from the count N and the N errors
in the order they occurred; and Finish returns nil exactly when no flush of
the run failed. -/
theorem C4_finish_error (env : Env) (table : String) (columns : List String) (m : Insert)
    (rows : List (List Value)) (hm : NewInsert table columns = some m) :
    (∀ N, 1 ≤ N → (failures (Finish env (addRows env (m, []) rows)).1.2).length = N →
        (Finish env (addRows env (m, []) rows)).2
          = some { count := N
                   errs := failures (Finish env (addRows env (m, []) rows)).1.2 })
      ∧ ((Finish env (addRows env (m, []) rows)).2 = none
          ↔ failures (Finish env (addRows env (m, []) rows)).1.2 = []) := by
  have he := (finish_addRows env rows hm).2
  have hres : (Finish env (addRows env (m, []) rows)).2
      = finishResult (finishRun env (addRows env (m, []) rows)).1 := rfl
  have hlog : (Finish env (addRows env (m, []) rows)).1.2
      = (finishRun env (addRows env (m, []) rows)).2 := rfl
  rw [hres, hlog]
  unfold finishResult
  rw [he]
  constructor
  · intro N hN hlen
    rw [if_neg (by omega), hlen]
  · constructor
    · intro h
      split at h
      · exact List.length_eq_zero.mp (by assumption)
      · cases h
    · intro h
      rw [h]; rfl

theorem C4_finish_error_witness :
    NewInsert "t" ["a", "b"] = some insertAB
      ∧ (failures (Finish failEnv (addRows failEnv (insertAB, []) (rowsAB 1))).1.2).length = 1
      ∧ (Finish failEnv (addRows failEnv (insertAB, []) (rowsAB 1))).2
          = some { count := 1
                   errs := failures
                     (Finish failEnv (addRows failEnv (insertAB, []) (rowsAB 1))).1.2 } :=
  ⟨rfl, by decide,
    (C4_finish_error failEnv "t" ["a", "b"] insertAB (rowsAB 1) rfl).1 1 (by decide)
      (by decide)⟩

/-- C5: on a receiver with a zero row counter and an empty error list Finish
returns nil, makes no flush (the log is unchanged: nothing is built or
executed) and leaves the receiver unchanged. -/
theorem C5_finish_idle (env : Env) (s : Run) (h0 : s.1.rows = 0) (he : s.1.errors = []) :
    Finish env s = (s, none) := by
  have hrun : finishRun env s = s := by
    unfold finishRun
    rw [if_neg (by omega)]
  unfold Finish
  rw [hrun]
  unfold finishResult
  rw [he]
  rfl

theorem C5_finish_idle_witness :
    insertAB.rows = 0 ∧ insertAB.errors = []
      ∧ Finish noBuildEnv (insertAB, []) = ((insertAB, []), none) :=
  ⟨rfl, rfl, C5_finish_idle noBuildEnv (insertAB, []) rfl rfl⟩

/-- C6: when a flush builds its statement and the execution fails with e, then
after the flush the builder is empty and the counter is zero, e is the last
entry of the error list, and the log gained exactly this failed flush; the
rows of the failed flush are in no later statement (whatever calls follow, the
flushes they make and the builder hold exactly the rows passed by those
calls); a Values call that triggered the flush returns just this state, with
no error value; and Finish, called at once or after any further calls, returns
a non-nil error that holds e. -/
theorem C6_failed_flush (env : Env) (s : Run) (q : Query) (e : Err)
    (hb : env.toSql s.1.insert = Except.ok q)
    (hx : env.execContext (executed s.2) q = some e) :
    (doInsert env s).1.insert.values = [] ∧ (doInsert env s).1.rows = 0
      ∧ (doInsert env s).1.errors = s.1.errors ++ [e]
      ∧ (doInsert env s).2 = s.2 ++ [{ stmt := s.1.insert, result := .execFailed q e }]
      ∧ (∀ calls, ∃ later,
          (runCalls env (doInsert env s) calls).2 = (doInsert env s).2 ++ later
            ∧ flushedRows later ++ (runCalls env (doInsert env s) calls).1.insert.values
                = Call.rowsOf calls)
      ∧ (∀ (s0 : Run) (vs : List Value), (addRow s0.1 vs, s0.2) = s →
          (addRow s0.1 vs).rows ≥ (addRow s0.1 vs).limit → Values env s0 vs = doInsert env s)
      ∧ (Finish env (doInsert env s)).2
          = some { count := s.1.errors.length + 1, errs := s.1.errors ++ [e] }
      ∧ (∀ calls, ∃ fe, (Finish env (runCalls env (doInsert env s) calls)).2 = some fe
          ∧ e ∈ fe.errs) := by
  have hd : doInsert env s
      = (reset { s.1 with errors := s.1.errors ++ [e] },
          s.2 ++ [{ stmt := s.1.insert, result := .execFailed q e }]) := by
    unfold doInsert
    simp only [hb, hx]
  have hv : (doInsert env s).1.insert.values = [] := by rw [hd]; rfl
  have he : (doInsert env s).1.errors = s.1.errors ++ [e] := by rw [hd]; rfl
  have hrun : finishRun env (doInsert env s) = doInsert env s := by
    unfold finishRun
    rw [if_neg (by rw [doInsert_rows]; omega)]
  refine ⟨hv, doInsert_rows env s, he, by rw [hd], ?_, ?_, ?_, ?_⟩
  · intro calls
    obtain ⟨later, hl, _, hR, _⟩ := runCalls_grows env calls (doInsert env s)
    rw [hv, List.nil_append] at hR
    exact ⟨later, hl, hR⟩
  · intro s0 vs hs hge
    rw [← hs]
    exact Values_flush env s0 vs hge
  · show finishResult (finishRun env (doInsert env s)).1 = _
    rw [hrun]
    exact finishResult_of_errors he
  · intro calls
    obtain ⟨new, _, hE, _⟩ :=
      (runCalls_grows env calls (doInsert env s)).trans
        (finishRun_grows env (runCalls env (doInsert env s) calls))
    rw [he] at hE
    refine ⟨{ count := (finishRun env (runCalls env (doInsert env s) calls)).1.errors.length
              errs := (finishRun env (runCalls env (doInsert env s) calls)).1.errors }, ?_, ?_⟩
    · show finishResult (finishRun env (runCalls env (doInsert env s) calls)).1 = _
      unfold finishResult
      rw [if_neg (by rw [hE]; simp)]
    · show e ∈ (finishRun env (runCalls env (doInsert env s) calls)).1.errors
      rw [hE]; simp

theorem C6_failed_flush_witness :
    failEnv.toSql insertAB1.insert
        = Except.ok { sql := "t", args := [Value.int 1, Value.int 2] }
      ∧ failEnv.execContext (executed []) { sql := "t", args := [Value.int 1, Value.int 2] }
        = some "exec failed"
      ∧ (doInsert failEnv (insertAB1, [])).1.insert.values = []
      ∧ (doInsert failEnv (insertAB1, [])).1.rows = 0
      ∧ (doInsert failEnv (insertAB1, [])).1.errors = insertAB1.errors ++ ["exec failed"] :=
  have h := C6_failed_flush failEnv (insertAB1, [])
    { sql := "t", args := [Value.int 1, Value.int 2] } "exec failed" rfl rfl
  ⟨rfl, rfl, h.1, h.2.1, h.2.2.1⟩

/-- C7, refuted as stated: with an empty table name ToSql fails at every flush,
so no statement is executed and no execution fails, yet Finish returns an
error. One column and one row give one flush and 0 executions, not 1, and
Finish returns the build error; the columns a, b and the 500 rows (i, i*2)
give flushes of 498 and 2 rows and 0 executions, not 2, and Finish returns an
error. -/
theorem C7_counterexample :
    (∃ m, NewInsert "" ["a"] = some m ∧ m.limit = 998
        ∧ sizes (Finish emptyTableEnv (addRows emptyTableEnv (m, []) [[Value.int 1]])).1.2
          = [1]
        ∧ executed (Finish emptyTableEnv (addRows emptyTableEnv (m, []) [[Value.int 1]])).1.2
          = []
        ∧ (Finish emptyTableEnv (addRows emptyTableEnv (m, []) [[Value.int 1]])).2
          = some { count := 1, errs := ["insert statements must specify a table"] })
      ∧ (∃ m, NewInsert "" ["a", "b"] = some m ∧ m.limit = 498
        ∧ sizes (Finish emptyTableEnv (addRows emptyTableEnv (m, []) (rowsAB 500))).1.2
          = [498, 2]
        ∧ executed (Finish emptyTableEnv (addRows emptyTableEnv (m, []) (rowsAB 500))).1.2
          = []
        ∧ (Finish emptyTableEnv (addRows emptyTableEnv (m, []) (rowsAB 500))).2 ≠ none) := by
  refine ⟨⟨_, rfl, by decide, by decide, by decide, by decide⟩, ?_⟩
  have hm : NewInsert "" ["a", "b"] = some insertNoTable := rfl
  have hne : rowsAB 500 ≠ [] := by
    intro h
    have hl := rowsAB_length 500
    rw [h] at hl
    cases hl
  obtain ⟨h1, h2⟩ := emptyTable_finish (rowsAB 500) hm rfl
  refine ⟨insertNoTable, hm, rfl, ?_, h1, h2 hne⟩
  rw [finish_log_sizes emptyTableEnv (rowsAB 500) hm (by decide), rowsAB_length]
  rfl

/-- C7, amended: on the receiver made by NewInsert with a threshold T ≥ 1, n
Values calls and a Finish call make floor(n/T) flushes of exactly T rows
followed by one flush of n mod T rows when n mod T > 0, and Finish returns nil
exactly when every flush built its statement and executed it with success.
With the columns a, b the threshold is 498 and the 500 rows (i, i*2) are
flushed as 498 rows, then 2 rows: two executions when ToSql returns a
statement for every builder. With one column the threshold is 998 and one row
gives one flush holding that row: one execution when ToSql returns a
statement for every builder. -/
theorem C7_batches (env : Env) :
    (∀ (table : String) (columns : List String) (m : Insert) (rows : List (List Value)),
        NewInsert table columns = some m → 1 ≤ m.limit →
        sizes (Finish env (addRows env (m, []) rows)).1.2
            = List.replicate (rows.length / m.limit) m.limit
              ++ (if rows.length % m.limit > 0 then [rows.length % m.limit] else [])
          ∧ ((Finish env (addRows env (m, []) rows)).2 = none
              ↔ ∀ f ∈ (Finish env (addRows env (m, []) rows)).1.2,
                  ∃ q, f.result = FlushResult.ok q))
      ∧ (∀ (table : String) (m : Insert), NewInsert table ["a", "b"] = some m →
          m.limit = 498
            ∧ sizes (Finish env (addRows env (m, []) (rowsAB 500))).1.2 = [498, 2]
            ∧ ((∀ f ∈ (Finish env (addRows env (m, []) (rowsAB 500))).1.2,
                  ∃ q, env.toSql f.stmt = Except.ok q) →
                (executed (Finish env (addRows env (m, []) (rowsAB 500))).1.2).length = 2))
      ∧ (∀ (table column : String) (m : Insert) (row : List Value),
          NewInsert table [column] = some m →
          m.limit = 998
            ∧ sizes (Finish env (addRows env (m, []) [row])).1.2 = [1]
            ∧ flushedRows (Finish env (addRows env (m, []) [row])).1.2 = [row]
            ∧ ((∀ f ∈ (Finish env (addRows env (m, []) [row])).1.2,
                  ∃ q, env.toSql f.stmt = Except.ok q) →
                (executed (Finish env (addRows env (m, []) [row])).1.2).length = 1)) := by
  refine ⟨?_, ?_, ?_⟩
  · intro table columns m rows hm hT
    refine ⟨finish_sizes env rows hm hT, ?_⟩
    show finishResult (finishRun env (addRows env (m, []) rows)).1 = none
      ↔ ∀ f ∈ (finishRun env (addRows env (m, []) rows)).2, ∃ q, f.result = FlushResult.ok q
    rw [← failures_nil_iff]
    unfold finishResult
    rw [(finish_addRows env rows hm).2]
    constructor
    · intro h
      split at h
      · exact List.length_eq_zero.mp (by assumption)
      · cases h
    · intro h
      rw [h]
      rfl
  · intro table m hm
    have hl : m.limit = 498 := (NewInsert_some hm).2.2.1
    have hs : sizes (finishRun env (addRows env (m, []) (rowsAB 500))).2 = [498, 2] := by
      rw [finish_sizes env (rowsAB 500) hm (by omega), hl, rowsAB_length]
      rfl
    refine ⟨hl, hs, ?_⟩
    intro hb
    have hs2 : sizes (Finish env (addRows env (m, []) (rowsAB 500))).1.2 = [498, 2] := hs
    rw [finish_executed_length env m (rowsAB 500) hb, ← sizes_length, hs2]
    rfl
  · intro table column m row hm
    have hl : m.limit = 998 := by
      rw [(NewInsert_some hm).2.2.1]
      show toUint16 (999 / ((1 : Nat) : Int) - 1) = 998
      decide
    have hs : sizes (finishRun env (addRows env (m, []) [row])).2 = [1] := by
      rw [finish_sizes env [row] hm (by omega), hl]
      simp
    refine ⟨hl, hs, (finish_addRows env [row] hm).1, ?_⟩
    intro hb
    have hs2 : sizes (Finish env (addRows env (m, []) [row])).1.2 = [1] := hs
    rw [finish_executed_length env m [row] hb, ← sizes_length, hs2]
    rfl

theorem C7_batches_witness :
    NewInsert "t" ["a", "b"] = some insertAB
      ∧ 1 ≤ insertAB.limit
      ∧ sizes (Finish okEnv (addRows okEnv (insertAB, []) (rowsAB 997))).1.2
          = List.replicate ((rowsAB 997).length / insertAB.limit) insertAB.limit
            ++ (if (rowsAB 997).length % insertAB.limit > 0
                then [(rowsAB 997).length % insertAB.limit] else [])
      ∧ (executed (Finish okEnv (addRows okEnv (insertAB, []) (rowsAB 500))).1.2).length = 2 :=
  ⟨rfl, by decide,
    ((C7_batches okEnv).1 "t" ["a", "b"] insertAB (rowsAB 997) rfl (by decide)).1,
    ((C7_batches okEnv).2.1 "t" insertAB rfl).2.2 (fun _ _ => ⟨_, rfl⟩)⟩

/-- C8, refuted as stated. With 500 columns the threshold is 0: adding exactly
0 rows makes no flush, not one. With 400 columns the threshold is 1: by the
time the second Values call returns two flushes have been made, not one. -/
theorem C8_counterexample :
    (∃ m, NewInsert "t" (List.replicate 500 "c") = some m ∧ m.limit = 0
        ∧ (addRows okEnv (m, []) []).2.length = 0)
      ∧ (∃ m, NewInsert "t" (List.replicate 400 "c") = some m ∧ m.limit = 1
        ∧ (Values okEnv (addRows okEnv (m, []) [[Value.null]]) [Value.null]).2.length = 2) := by
  constructor
  · refine ⟨_, NewInsert_of_pos "t" _ (by rw [List.length_replicate]; decide), ?_, rfl⟩
    simp only [List.length_replicate]
    decide
  · refine ⟨_, NewInsert_of_pos "t" _ (by rw [List.length_replicate]; decide), ?_, ?_⟩
    · simp only [List.length_replicate]
      decide
    · simp only [List.length_replicate]
      decide

/-- C8, amended: on the receiver made by NewInsert with threshold T, fewer than
T Values calls make no flush; when T ≥ 1, exactly T Values calls make exactly
one flush; by the time the (T+1)-th Values call returns exactly one flush has
been made when T is not 1, and exactly two when T is 1. -/
theorem C8_first_flush (env : Env) (table : String) (columns : List String) (m : Insert)
    (rows : List (List Value)) (v : List Value)
    (hm : NewInsert table columns = some m) (hn : rows.length = m.limit) :
    (∀ fewer : List (List Value), fewer.length < m.limit →
        (addRows env (m, []) fewer).2 = [])
      ∧ (1 ≤ m.limit → (addRows env (m, []) rows).2.length = 1)
      ∧ (m.limit ≠ 1 → (Values env (addRows env (m, []) rows) v).2.length = 1)
      ∧ (m.limit = 1 → (Values env (addRows env (m, []) rows) v).2.length = 2) := by
  have hinv := NewInsert_inv hm
  have hr0 : m.rows = 0 := (NewInsert_some hm).2.1
  have hsz : ∀ rs : List (List Value), 1 ≤ m.limit →
      sizes (addRows env (m, []) rs).2 = List.replicate (rs.length / m.limit) m.limit := by
    intro rs hT
    obtain ⟨h1, _⟩ := addRows_sizes env rs (m, []) hinv (by show m.rows < m.limit; omega)
    simp only [hr0, Nat.zero_add] at h1
    rw [h1]; simp [sizes]
  have hlen : ∀ rs : List (List Value), 1 ≤ m.limit →
      (addRows env (m, []) rs).2.length = rs.length / m.limit := by
    intro rs hT
    rw [← sizes_length, hsz rs hT, List.length_replicate]
  have hnext : Values env (addRows env (m, []) rows) v = addRows env (m, []) (rows ++ [v]) := by
    rw [addRows_append]; rfl
  refine ⟨?_, ?_, ?_, ?_⟩
  · intro fewer hlt
    have h := hlen fewer (by omega)
    rw [Nat.div_eq_of_lt hlt] at h
    exact List.length_eq_zero.mp h
  · intro hT
    rw [hlen rows hT, hn, Nat.div_self (by omega)]
  · intro hne
    by_cases h0 : m.limit = 0
    · have hrows : rows = [] := List.length_eq_zero.mp (by omega)
      rw [hrows]
      show (Values env (m, []) v).2.length = 1
      have hge : (addRow m v).rows ≥ (addRow m v).limit := by
        show (addRow m v).rows ≥ m.limit
        omega
      rw [Values_flush env (m, []) v hge]
      obtain ⟨f, hf, _⟩ := doInsert_log env (addRow m v, [])
      rw [hf]; rfl
    · rw [hnext, hlen _ (by omega), List.length_append, hn]
      show (m.limit + 1) / m.limit = 1
      rw [Nat.add_div_left _ (by omega), Nat.div_eq_of_lt (by omega)]
  · intro h1
    rw [hnext, hlen _ (by omega), List.length_append, hn, h1]
    simp

theorem C8_first_flush_witness :
    NewInsert "t" ["a", "b"] = some insertAB
      ∧ (rowsAB 498).length = insertAB.limit
      ∧ 1 ≤ insertAB.limit
      ∧ (addRows failEnv (insertAB, []) (rowsAB 498)).2.length = 1
      ∧ insertAB.limit ≠ 1
      ∧ (Values failEnv (addRows failEnv (insertAB, []) (rowsAB 498))
          [Value.int 498, Value.int 996]).2.length = 1 :=
  have h := C8_first_flush failEnv "t" ["a", "b"] insertAB (rowsAB 498)
    [Value.int 498, Value.int 996] rfl (rowsAB_length 498)
  ⟨rfl, rowsAB_length 498, by decide, h.2.1 (by decide), by decide, h.2.2.1 (by decide)⟩

/-- C9, the code at the failing input: with the columns a, b the first 498
Values calls end in an automatic flush of 498 rows, 996 bound parameters,
although 499 rows of 2 values are 998 parameters and do not exceed 999. The
largest n with n*2 ≤ 999 is 499, one more than the code sends. -/
theorem C9_flush_not_maximal (env : Env) :
    ∃ m, NewInsert "t" ["a", "b"] = some m
      ∧ sizes (addRows env (m, []) (rowsAB 498)).2 = [498]
      ∧ (addRows env (m, []) (rowsAB 498)).1.rows = 0
      ∧ (498 + 1) * ["a", "b"].length ≤ 999
      ∧ ¬ (498 + 2) * ["a", "b"].length ≤ 999 := by
  have hm : NewInsert "t" ["a", "b"] = some insertAB := rfl
  obtain ⟨h1, h2, _⟩ := addRows_sizes env (rowsAB 498) (insertAB, []) (NewInsert_inv hm)
    (by decide)
  rw [rowsAB_length] at h1 h2
  exact ⟨insertAB, hm, h1, h2, by decide, by decide⟩

/-- C10: in every state reached from the receiver made by NewInsert by any
sequence of Values and Finish calls, the row counter is at most the threshold
(which is still the one NewInsert computed) and equals the number of rows held
by the builder. -/
theorem C10_counter_bounded (env : Env) (table : String) (columns : List String)
    (m : Insert) (calls : List Call) (hm : NewInsert table columns = some m) :
    (runCalls env (m, []) calls).1.rows ≤ (runCalls env (m, []) calls).1.limit
      ∧ (runCalls env (m, []) calls).1.rows
          = (runCalls env (m, []) calls).1.insert.values.length
      ∧ (runCalls env (m, []) calls).1.limit = m.limit := by
  obtain ⟨hc, _, hr⟩ := runCalls_inv env calls (m, []) (NewInsert_inv hm)
  obtain ⟨_, _, _, _, hl, _⟩ := runCalls_grows env calls (m, [])
  refine ⟨?_, hc, hl⟩
  omega

theorem C10_counter_bounded_witness :
    NewInsert "t" ["a", "b"] = some insertAB
      ∧ (runCalls failEnv (insertAB, [])
            [Call.values [Value.int 1, Value.int 2], Call.finish,
              Call.values [Value.int 3, Value.int 6]]).1.rows
          ≤ (runCalls failEnv (insertAB, [])
            [Call.values [Value.int 1, Value.int 2], Call.finish,
              Call.values [Value.int 3, Value.int 6]]).1.limit :=
  ⟨rfl, (C10_counter_bounded failEnv "t" ["a", "b"] insertAB
    [Call.values [Value.int 1, Value.int 2], Call.finish,
      Call.values [Value.int 3, Value.int 6]] rfl).1⟩

/-! ## States at rest -/

/-- In a state at rest the counter is below 65535, so the increment of Values
does not wrap. -/
theorem Inv.rows_lt {m : Insert} (h : Inv m) : m.rows < 65535 := by
  obtain ⟨_, hl, hr⟩ := h
  omega

theorem runCalls_frame (env : Env) (s : Run) (calls : List Call) :
    (runCalls env s calls).1.limit = s.1.limit
      ∧ (runCalls env s calls).1.table = s.1.table
      ∧ (runCalls env s calls).1.columns = s.1.columns := by
  obtain ⟨_, _, _, _, hl, ht, hc⟩ := runCalls_grows env calls s
  exact ⟨hl, ht, hc⟩

theorem NewInsert_eq_goDiv (table : String) (columns : List String) :
    NewInsert table columns
      = (goDiv 999 (columns.length : Int)).map fun q =>
          { rows := 0
            limit := toUint16 (q - 1)
            table := table
            columns := columns
            insert := newBuilder table columns
            errors := [] } := by
  unfold NewInsert goDiv
  by_cases h : columns.length = 0
  · rw [if_pos h, if_pos (by omega)]
    rfl
  · rw [if_neg h, if_neg (by omega)]
    simp only [Option.map_some']
    rw [Int.tdiv_eq_ediv (by norm_num) (by omega)]

/-- C11, refuted as stated: with 500 columns the threshold is 0, and the new
receiver, with 0 pending rows, does not satisfy pending < threshold; neither
does the state after a Values call. -/
theorem C11_counterexample :
    ∃ m, NewInsert "t" (List.replicate 500 "c") = some m ∧ m.limit = 0
      ∧ ¬ (runCalls okEnv (m, []) []).1.rows < m.limit
      ∧ ¬ (runCalls okEnv (m, []) [Call.values [Value.null]]).1.rows < m.limit := by
  refine ⟨_, NewInsert_of_pos "t" _ (by rw [List.length_replicate]; decide), ?_, ?_, ?_⟩
  · simp only [List.length_replicate]
    decide
  · simp only [List.length_replicate]
    decide
  · simp only [List.length_replicate]
    decide

/-- C11, amended: in every state reached from the receiver made by NewInsert by
Values and Finish calls, when the threshold T is at least 1 the counter and the
number of rows in the builder are below T (the state is Accumulating), and
when T is 0 both are 0. -/
theorem C11_accumulating (env : Env) (table : String) (columns : List String)
    (m : Insert) (calls : List Call) (hm : NewInsert table columns = some m) :
    (1 ≤ m.limit →
        (runCalls env (m, []) calls).1.rows < m.limit
          ∧ (runCalls env (m, []) calls).1.insert.values.length < m.limit)
      ∧ (m.limit = 0 →
        (runCalls env (m, []) calls).1.rows = 0
          ∧ (runCalls env (m, []) calls).1.insert.values = []) := by
  obtain ⟨hc, _, hr⟩ := runCalls_inv env calls (m, []) (NewInsert_inv hm)
  have hl : (runCalls env (m, []) calls).1.limit = m.limit :=
    (runCalls_frame env (m, []) calls).1
  rw [hl] at hr
  constructor
  · intro hT
    have h : (runCalls env (m, []) calls).1.rows < m.limit := by omega
    exact ⟨h, by rw [← hc]; exact h⟩
  · intro h0
    have h : (runCalls env (m, []) calls).1.rows = 0 := by omega
    exact ⟨h, List.length_eq_zero.mp (by rw [← hc]; exact h)⟩

theorem C11_accumulating_witness :
    NewInsert "t" ["a", "b"] = some insertAB
      ∧ 1 ≤ insertAB.limit
      ∧ (runCalls okEnv (insertAB, [])
            [Call.values [Value.int 1, Value.int 2], Call.finish,
              Call.values [Value.int 3, Value.int 6]]).1.rows < insertAB.limit :=
  ⟨rfl, by decide,
    ((C11_accumulating okEnv "t" ["a", "b"] insertAB
      [Call.values [Value.int 1, Value.int 2], Call.finish,
        Call.values [Value.int 3, Value.int 6]] rfl).1 (by decide)).1⟩

/-- C13: NewInsert returns no receiver exactly when the column list is empty,
which is exactly when the Go division 999/len(columns) panics; for every
column count C > 0 it returns a receiver. -/
theorem C13_zero_columns (table : String) (columns : List String) :
    (NewInsert table columns = none ↔ columns.length = 0)
      ∧ (goDiv 999 (columns.length : Int) = none ↔ columns.length = 0)
      ∧ ((∃ m, NewInsert table columns = some m) ↔ 0 < columns.length) := by
  refine ⟨?_, ?_, ?_⟩
  · unfold NewInsert
    constructor
    · intro h
      by_contra hne
      rw [if_neg hne] at h
      cases h
    · intro h
      rw [if_pos h]
  · unfold goDiv
    constructor
    · intro h
      by_contra hne
      rw [if_neg (by omega)] at h
      cases h
    · intro h
      rw [if_pos (by omega)]
  · constructor
    · rintro ⟨m, hm⟩
      exact (NewInsert_some hm).1
    · intro h
      exact ⟨_, NewInsert_of_pos table columns h⟩

/-! ## Single calls -/

theorem step_frame (env : Env) (s : Run) (c : Call) :
    (step env s c).1.table = s.1.table ∧ (step env s c).1.columns = s.1.columns
      ∧ (step env s c).1.limit = s.1.limit := by
  obtain ⟨_, _, _, _, hl, ht, hc⟩ := step_grows env s c
  exact ⟨ht, hc, hl⟩

theorem executed_snoc (log : List Flush) (f : Flush) :
    executed (log ++ [f]) = executed log ++ f.query.toList := by
  rw [executed_append]
  unfold executed
  cases h : f.query <;> simp [h]

/-- C12: a flush whose statement build fails appends exactly that error and
hands nothing to the database; a flush whose execution fails appends exactly
that error after handing over its statement; a flush that builds and executes
appends no error. In each case the errors recorded before stay in place as a
prefix. After any flush of a run started by NewInsert the receiver is the new
receiver but for the error list, so a following Values call appends its row
to an empty builder and counts 1, as on a new receiver. -/
theorem C12_flush_errors (env : Env) (s : Run) :
    (∀ err, env.toSql s.1.insert = Except.error err →
        (doInsert env s).1.errors = s.1.errors ++ [err]
          ∧ executed (doInsert env s).2 = executed s.2)
      ∧ (∀ q err, env.toSql s.1.insert = Except.ok q →
          env.execContext (executed s.2) q = some err →
          (doInsert env s).1.errors = s.1.errors ++ [err]
            ∧ executed (doInsert env s).2 = executed s.2 ++ [q])
      ∧ (∀ q, env.toSql s.1.insert = Except.ok q →
          env.execContext (executed s.2) q = none →
          (doInsert env s).1.errors = s.1.errors
            ∧ executed (doInsert env s).2 = executed s.2 ++ [q])
      ∧ (∃ more, (doInsert env s).1.errors = s.1.errors ++ more ∧ more.length ≤ 1)
      ∧ (∀ vs, (addRow (doInsert env s).1 vs).insert
            = (newBuilder s.1.table s.1.columns).Values vs
          ∧ (addRow (doInsert env s).1 vs).rows = 1)
      ∧ (∀ table columns m calls, NewInsert table columns = some m →
          s = runCalls env (m, []) calls →
          (doInsert env s).1 = { m with errors := (doInsert env s).1.errors }
            ∧ ∀ vs, (addRow (doInsert env s).1 vs).insert = (addRow m vs).insert
              ∧ (addRow (doInsert env s).1 vs).rows = (addRow m vs).rows
              ∧ (addRow (doInsert env s).1 vs).limit = (addRow m vs).limit) := by
  obtain ⟨c1, c2, c3⟩ := doInsert_cases env s
  have hfresh : ∀ vs, (addRow (doInsert env s).1 vs).insert
        = (newBuilder s.1.table s.1.columns).Values vs
      ∧ (addRow (doInsert env s).1 vs).rows = 1 := by
    intro vs
    constructor
    · show (doInsert env s).1.insert.Values vs = _
      rw [doInsert_insert]
    · show ((doInsert env s).1.rows + 1) % 65536 = 1
      rw [doInsert_rows]
  refine ⟨?_, ?_, ?_, ?_, hfresh, ?_⟩
  · intro err hb
    rw [c1 err hb]
    exact ⟨rfl, by rw [executed_snoc]; simp [Flush.query]⟩
  · intro q err hb hx
    rw [c2 q err hb hx]
    exact ⟨rfl, by rw [executed_snoc]; simp [Flush.query]⟩
  · intro q hb hx
    rw [c3 q hb hx]
    exact ⟨rfl, by rw [executed_snoc]; simp [Flush.query]⟩
  · obtain ⟨f, _, _, he⟩ := doInsert_log env s
    refine ⟨(Flush.error f).toList, he, ?_⟩
    cases Flush.error f <;> simp
  · intro table columns m calls hm hs
    obtain ⟨_, hr, _, ht, hc, hi, _⟩ := NewInsert_some hm
    obtain ⟨fl, ft, fc⟩ := runCalls_frame env (m, []) calls
    rw [← hs] at fl ft fc
    have hst : s.1.table = table := ft.trans ht
    have hsc : s.1.columns = columns := fc.trans hc
    have hrec : (doInsert env s).1 = { m with errors := (doInsert env s).1.errors } := by
      obtain ⟨r, hd⟩ := doInsert_eq env s
      rw [hd]
      show reset _ = _
      unfold reset
      simp only [hst, hsc]
      cases m
      simp only at hr hi ht hc fl ⊢
      subst hr hi ht hc
      simp [fl]
    refine ⟨hrec, ?_⟩
    intro vs
    rw [hrec]
    exact ⟨rfl, rfl, rfl⟩

theorem C12_flush_errors_witness :
    failEnv.toSql insertAB1.insert
        = Except.ok { sql := "t", args := [Value.int 1, Value.int 2] }
      ∧ failEnv.execContext (executed []) { sql := "t", args := [Value.int 1, Value.int 2] }
        = some "exec failed"
      ∧ (doInsert failEnv (insertAB1, [])).1.errors = insertAB1.errors ++ ["exec failed"]
      ∧ executed (doInsert failEnv (insertAB1, [])).2
        = executed [] ++ [{ sql := "t", args := [Value.int 1, Value.int 2] }]
      ∧ noBuildEnv.toSql insertAB1.insert = Except.error "build failed"
      ∧ (doInsert noBuildEnv (insertAB1, [])).1.errors = insertAB1.errors ++ ["build failed"]
      ∧ executed (doInsert noBuildEnv (insertAB1, [])).2 = executed [] :=
  ⟨rfl, rfl,
    ((C12_flush_errors failEnv (insertAB1, [])).2.1 _ "exec failed" rfl rfl).1,
    ((C12_flush_errors failEnv (insertAB1, [])).2.1 _ "exec failed" rfl rfl).2,
    rfl,
    ((C12_flush_errors noBuildEnv (insertAB1, [])).1 "build failed" rfl).1,
    ((C12_flush_errors noBuildEnv (insertAB1, [])).1 "build failed" rfl).2⟩

/-- C14: a Values or Finish call, whether or not it flushes and whatever the
flush does, leaves table, columns and limit of the receiver as they were, and
so does every sequence of such calls; the builder a reset installs is the
builder for the receiver's table and columns, which after any calls on the
receiver made by NewInsert is the builder NewInsert installed. -/
theorem C14_frame (env : Env) (s : Run) (c : Call) :
    ((step env s c).1.table = s.1.table ∧ (step env s c).1.columns = s.1.columns
        ∧ (step env s c).1.limit = s.1.limit)
      ∧ ((doInsert env s).1.table = s.1.table ∧ (doInsert env s).1.columns = s.1.columns
        ∧ (doInsert env s).1.limit = s.1.limit)
      ∧ (doInsert env s).1.insert = newBuilder s.1.table s.1.columns
      ∧ (∀ table columns m calls, NewInsert table columns = some m →
          (runCalls env (m, []) calls).1.table = table
            ∧ (runCalls env (m, []) calls).1.columns = columns
            ∧ (runCalls env (m, []) calls).1.limit = m.limit
            ∧ (doInsert env (runCalls env (m, []) calls)).1.insert = m.insert
            ∧ m.insert = newBuilder table columns) := by
  refine ⟨step_frame env s c,
    ⟨doInsert_table env s, doInsert_columns env s, doInsert_limit env s⟩,
    doInsert_insert env s, ?_⟩
  intro table columns m calls hm
  obtain ⟨_, _, _, ht, hc, hi, _⟩ := NewInsert_some hm
  obtain ⟨fl, ft, fc⟩ := runCalls_frame env (m, []) calls
  refine ⟨ft.trans ht, fc.trans hc, fl, ?_, hi⟩
  rw [doInsert_insert, ft, fc, hi]
  show newBuilder m.table m.columns = _
  rw [ht, hc]

theorem C14_frame_witness :
    NewInsert "t" ["a", "b"] = some insertAB
      ∧ (runCalls failEnv (insertAB, [])
          [Call.values [Value.int 1, Value.int 2], Call.finish]).1.table = "t"
      ∧ (runCalls failEnv (insertAB, [])
          [Call.values [Value.int 1, Value.int 2], Call.finish]).1.columns = ["a", "b"]
      ∧ (runCalls failEnv (insertAB, [])
          [Call.values [Value.int 1, Value.int 2], Call.finish]).1.limit = insertAB.limit :=
  have h := (C14_frame failEnv (insertAB, []) Call.finish).2.2.2 "t" ["a", "b"] insertAB
    [Call.values [Value.int 1, Value.int 2], Call.finish] rfl
  ⟨rfl, h.1, h.2.1, h.2.2.1⟩

/-! ## The sizes of all flushes -/

theorem doInsert_bounded (env : Env) (s : Run) (B : Nat) (h : Bounded B s.2)
    (h1 : 1 ≤ s.1.insert.values.length) (h2 : s.1.insert.values.length ≤ B) :
    Bounded B (doInsert env s).2 := by
  obtain ⟨f, hf, hstmt, _⟩ := doInsert_log env s
  rw [hf]
  intro g hg
  rcases List.mem_append.mp hg with hg | hg
  · exact h g hg
  · rw [List.mem_singleton.mp hg]
    show 1 ≤ f.stmt.values.length ∧ f.stmt.values.length ≤ B
    rw [hstmt]
    exact ⟨h1, h2⟩

theorem step_bounded (env : Env) (s : Run) (c : Call) (B : Nat) (hinv : Inv s.1)
    (hB : s.1.limit ≤ B) (hB1 : 1 ≤ B) (h : Bounded B s.2) :
    Bounded B (step env s c).2 := by
  obtain ⟨hc, hl, hr⟩ := hinv
  cases c with
  | values vs =>
    show Bounded B (Values env s vs).2
    unfold Values
    split
    · apply doInsert_bounded env (addRow s.1 vs, s.2) B h
      · show 1 ≤ (addRow s.1 vs).insert.values.length
        rw [addRow_values, List.length_append]
        simp
      · show (addRow s.1 vs).insert.values.length ≤ B
        rw [addRow_values, List.length_append, ← hc]
        simp only [List.length_singleton]
        omega
    · exact h
  | finish =>
    show Bounded B (finishRun env s).2
    unfold finishRun
    split
    · rename_i hpos
      apply doInsert_bounded env s B h
      · rw [← hc]; omega
      · rw [← hc]; omega
    · exact h

theorem runCalls_bounded (env : Env) (B : Nat) (hB1 : 1 ≤ B) (calls : List Call) :
    ∀ s : Run, Inv s.1 → s.1.limit ≤ B → Bounded B s.2 →
      Bounded B (runCalls env s calls).2 := by
  induction calls with
  | nil => intro s _ _ h; exact h
  | cons c cs ih =>
    intro s hinv hB h
    exact ih (step env s c) (step_inv env s c hinv)
      (by rw [(step_frame env s c).2.2]; exact hB)
      (step_bounded env s c B hinv hB hB1 h)

theorem flatten_length_of_rows (rows : List (List Value)) (c : Nat)
    (h : ∀ r ∈ rows, r.length = c) : rows.flatten.length = rows.length * c := by
  induction rows with
  | nil => simp
  | cons r rs ih =>
    have hr : r.length = c := h r (List.mem_cons_self r rs)
    have hrs : ∀ x ∈ rs, x.length = c := fun x hx => h x (List.mem_cons_of_mem r hx)
    simp only [List.flatten_cons, List.length_append, List.length_cons, ih hrs, hr]
    rw [Nat.add_mul, Nat.one_mul, Nat.add_comm]

theorem mem_flushedRows {log : List Flush} {f : Flush} {r : List Value}
    (hf : f ∈ log) (hr : r ∈ f.rows) : r ∈ flushedRows log := by
  unfold flushedRows
  rw [List.mem_flatten]
  exact ⟨f.rows, List.mem_map.mpr ⟨f, hf, rfl⟩, hr⟩

/-- For 1 ≤ C ≤ 999 the largest batch the code can flush, the threshold or one
row when the threshold is 0, stays within 999 bound parameters. -/
theorem limit_mul_le (c : Nat) (h1 : 0 < c) (h2 : c ≤ 999) :
    max (toUint16 (999 / (c : Int) - 1)) 1 * c ≤ 999 := by
  rw [toUint16_limit c h1 h2]
  have hq : (999 / c) * c ≤ 999 := Nat.div_mul_le_self 999 c
  by_cases hT : 1 ≤ 999 / c - 1
  · rw [Nat.max_eq_left hT]
    calc (999 / c - 1) * c ≤ (999 / c) * c := Nat.mul_le_mul_right c (Nat.sub_le _ _)
      _ ≤ 999 := hq
  · rw [Nat.max_eq_right (by omega)]
    omega

/-- C15: with 1 ≤ C ≤ 999 columns and rows of exactly C values, every builder
flushed by a run of Values calls and a Finish call on the receiver made by
NewInsert (automatic flushes and the final one) holds at least one row, and
its values, rows times C of them, are at most 999. -/
theorem C15_statement_bounds (env : Env) (table : String) (columns : List String)
    (m : Insert) (rows : List (List Value))
    (hm : NewInsert table columns = some m) (hC : columns.length ≤ 999)
    (hrows : ∀ r ∈ rows, r.length = columns.length) :
    ∀ f ∈ (Finish env (addRows env (m, []) rows)).1.2,
      1 ≤ f.rows.length ∧ f.rows.length * columns.length ≤ 999
        ∧ f.rows.flatten.length = f.rows.length * columns.length := by
  obtain ⟨hpos, _, hl, _⟩ := NewInsert_some hm
  have hrun : (Finish env (addRows env (m, []) rows)).1
      = runCalls env (m, []) (rows.map Call.values ++ [Call.finish]) := by
    show step env (addRows env (m, []) rows) Call.finish = _
    rw [addRows_eq_runCalls]
    unfold runCalls
    rw [List.foldl_append]
    rfl
  have hb : Bounded (max m.limit 1) (Finish env (addRows env (m, []) rows)).1.2 := by
    rw [hrun]
    exact runCalls_bounded env _ (Nat.le_max_right _ _) _ (m, []) (NewInsert_inv hm)
      (Nat.le_max_left _ _) (fun f hf => by cases hf)
  have hall := (finish_addRows env rows hm).1
  intro f hf
  obtain ⟨h1, h2⟩ := hb f hf
  have hmul : max m.limit 1 * columns.length ≤ 999 := by
    rw [hl]; exact limit_mul_le _ hpos hC
  refine ⟨h1, ?_, ?_⟩
  · calc f.rows.length * columns.length
        ≤ max m.limit 1 * columns.length := Nat.mul_le_mul_right _ h2
      _ ≤ 999 := hmul
  · apply flatten_length_of_rows
    intro r hr
    apply hrows
    rw [← hall]
    exact mem_flushedRows hf hr

theorem C15_statement_bounds_witness :
    NewInsert "t" ["a", "b"] = some insertAB
      ∧ ["a", "b"].length ≤ 999
      ∧ (∀ r ∈ [[Value.int 1, Value.int 2], [Value.int 3, Value.int 6]],
          r.length = ["a", "b"].length)
      ∧ ∀ f ∈ (Finish okEnv (addRows okEnv (insertAB, [])
            [[Value.int 1, Value.int 2], [Value.int 3, Value.int 6]])).1.2,
          1 ≤ f.rows.length ∧ f.rows.length * ["a", "b"].length ≤ 999
            ∧ f.rows.flatten.length = f.rows.length * ["a", "b"].length :=
  ⟨rfl, by decide, by decide,
    C15_statement_bounds okEnv "t" ["a", "b"] insertAB
      [[Value.int 1, Value.int 2], [Value.int 3, Value.int 6]] rfl (by decide) (by decide)⟩

/-- C16: in every state reached from the receiver made by NewInsert by Values
and Finish calls the uint16 counter is below 65535, so the increment of the
next Values call does not wrap: the counter becomes the old one plus 1, and
before and after the increment it is the number of rows in the builder. -/
theorem C16_no_wrap (env : Env) (table : String) (columns : List String) (m : Insert)
    (calls : List Call) (vs : List Value) (hm : NewInsert table columns = some m) :
    (runCalls env (m, []) calls).1.rows < 65535
      ∧ (addRow (runCalls env (m, []) calls).1 vs).rows
          = (runCalls env (m, []) calls).1.rows + 1
      ∧ (runCalls env (m, []) calls).1.rows
          = (runCalls env (m, []) calls).1.insert.values.length
      ∧ (addRow (runCalls env (m, []) calls).1 vs).rows
          = (addRow (runCalls env (m, []) calls).1 vs).insert.values.length := by
  have hinv := runCalls_inv env calls (m, []) (NewInsert_inv hm)
  have hrow := addRow_rows hinv vs
  refine ⟨hinv.rows_lt, hrow, hinv.1, ?_⟩
  rw [hrow, addRow_values, List.length_append, ← hinv.1]
  rfl

theorem C16_no_wrap_witness :
    NewInsert "t" ["a", "b"] = some insertAB
      ∧ (runCalls okEnv (insertAB, []) [Call.values [Value.int 1, Value.int 2]]).1.rows
          < 65535
      ∧ (addRow (runCalls okEnv (insertAB, []) [Call.values [Value.int 1, Value.int 2]]).1
            [Value.int 3, Value.int 6]).rows
          = (runCalls okEnv (insertAB, [])
              [Call.values [Value.int 1, Value.int 2]]).1.rows + 1 :=
  have h := C16_no_wrap okEnv "t" ["a", "b"] insertAB
    [Call.values [Value.int 1, Value.int 2]] [Value.int 3, Value.int 6] rfl
  ⟨rfl, h.1, h.2.1⟩

/-! ## Repeated Finish, and runs against two environments -/

theorem finishRun_idem (env : Env) (s : Run) :
    finishRun env (finishRun env s) = finishRun env s := by
  have h := finishRun_rows env s
  generalize finishRun env s = t at h
  unfold finishRun
  rw [if_neg (by omega)]

theorem finishResult_of_append {m t : Insert} {fe : FinishError} {more : List Err}
    (h : finishResult m = some fe) (ht : t.errors = m.errors ++ more) :
    finishResult t = some { count := fe.count + more.length, errs := fe.errs ++ more } := by
  unfold finishResult at h ⊢
  split at h
  · cases h
  · rename_i hne
    cases h
    rw [ht, if_neg (by rw [List.length_append]; omega), List.length_append]

/-- C17: Finish does not clear the error list. A second Finish call right
after a first one leaves receiver and log as they are (it builds and executes
nothing) and returns what the first returned; and when a Finish call returned
an error, the Finish call after any further calls returns an error whose list
starts with the same errors in the same order and whose count grew by the
number of errors added. This holds in every state, reachable or not. -/
theorem C17_finish_keeps_errors (env : Env) (s : Run) :
    Finish env (Finish env s).1 = Finish env s
      ∧ (Finish env s).1.1.errors.length ≥ s.1.errors.length
      ∧ (∀ calls, ∃ more,
          (Finish env (runCalls env (Finish env s).1 calls)).1.1.errors
            = (Finish env s).1.1.errors ++ more)
      ∧ (∀ fe, (Finish env s).2 = some fe → ∀ calls, ∃ more,
          (Finish env (runCalls env (Finish env s).1 calls)).2
            = some { count := fe.count + more.length, errs := fe.errs ++ more }
          ∧ fe.errs = (Finish env s).1.1.errors ∧ fe.count = fe.errs.length) := by
  have hgrow : ∀ calls, ∃ more,
      (finishRun env (runCalls env (finishRun env s) calls)).1.errors
        = (finishRun env s).1.errors ++ more := by
    intro calls
    obtain ⟨new, _, hE, _⟩ :=
      (runCalls_grows env calls (finishRun env s)).trans
        (finishRun_grows env (runCalls env (finishRun env s) calls))
    exact ⟨failures new, hE⟩
  refine ⟨?_, ?_, hgrow, ?_⟩
  · show (finishRun env (finishRun env s), finishResult (finishRun env (finishRun env s)).1)
      = (finishRun env s, finishResult (finishRun env s).1)
    rw [finishRun_idem]
  · obtain ⟨new, _, hE, _⟩ := finishRun_grows env s
    show (finishRun env s).1.errors.length ≥ _
    rw [hE, List.length_append]
    omega
  · intro fe hfe calls
    obtain ⟨more, hmore⟩ := hgrow calls
    have hfe2 : finishResult (finishRun env s).1 = some fe := hfe
    refine ⟨more, finishResult_of_append hfe2 hmore, ?_⟩
    unfold finishResult at hfe2
    split at hfe2
    · cases hfe2
    · cases hfe2
      exact ⟨rfl, rfl⟩

theorem C17_finish_keeps_errors_witness :
    (Finish failEnv (insertAB1, [])).2 = some { count := 1, errs := ["exec failed"] }
      ∧ Finish failEnv (Finish failEnv (insertAB1, [])).1 = Finish failEnv (insertAB1, [])
      ∧ ∃ more,
          (Finish failEnv (runCalls failEnv (Finish failEnv (insertAB1, [])).1
              [Call.values [Value.int 3, Value.int 6]])).2
            = some { count := 1 + more.length, errs := ["exec failed"] ++ more } :=
  have h := C17_finish_keeps_errors failEnv (insertAB1, [])
  ⟨rfl, h.1,
    (h.2.2.2 { count := 1, errs := ["exec failed"] } rfl
      [Call.values [Value.int 3, Value.int 6]]).imp fun _ hm => hm.1⟩

theorem sameBatching_self (s : Run) : SameBatching s s :=
  ⟨rfl, rfl, rfl, rfl, rfl, rfl⟩

theorem doInsert_same (env1 env2 : Env) {s t : Run} (h : SameBatching s t) :
    SameBatching (doInsert env1 s) (doInsert env2 t) := by
  obtain ⟨_, hl, ht, hc, hi, hlog⟩ := h
  obtain ⟨f, hf, hfs, _⟩ := doInsert_log env1 s
  obtain ⟨g, hg, hgs, _⟩ := doInsert_log env2 t
  refine ⟨?_, ?_, ?_, ?_, ?_, ?_⟩
  · rw [doInsert_rows, doInsert_rows]
  · rw [doInsert_limit, doInsert_limit, hl]
  · rw [doInsert_table, doInsert_table, ht]
  · rw [doInsert_columns, doInsert_columns, hc]
  · rw [doInsert_insert, doInsert_insert, ht, hc]
  · rw [hf, hg, List.map_append, List.map_append, hlog]
    simp [hfs, hgs, hi]

theorem addRow_same {s t : Run} (vs : List Value) (h : SameBatching s t) :
    SameBatching (addRow s.1 vs, s.2) (addRow t.1 vs, t.2) := by
  obtain ⟨hr, hl, ht, hc, hi, hlog⟩ := h
  refine ⟨?_, hl, ht, hc, ?_, hlog⟩
  · show (s.1.rows + 1) % 65536 = (t.1.rows + 1) % 65536
    rw [hr]
  · show s.1.insert.Values vs = t.1.insert.Values vs
    rw [hi]

theorem step_same (env1 env2 : Env) {s t : Run} (c : Call) (h : SameBatching s t) :
    SameBatching (step env1 s c) (step env2 t c) := by
  cases c with
  | values vs =>
    have ha := addRow_same vs h
    show SameBatching (Values env1 s vs) (Values env2 t vs)
    unfold Values
    have hr : (addRow s.1 vs).rows = (addRow t.1 vs).rows := ha.1
    have hl : (addRow s.1 vs).limit = (addRow t.1 vs).limit := ha.2.1
    rw [hr, hl]
    split
    · exact doInsert_same env1 env2 ha
    · exact ha
  | finish =>
    show SameBatching (finishRun env1 s) (finishRun env2 t)
    unfold finishRun
    rw [h.1]
    split
    · exact doInsert_same env1 env2 h
    · exact h

theorem runCalls_same (env1 env2 : Env) (calls : List Call) :
    ∀ s t : Run, SameBatching s t →
      SameBatching (runCalls env1 s calls) (runCalls env2 t calls) := by
  induction calls with
  | nil => intro s t h; exact h
  | cons c cs ih => intro s t h; exact ih _ _ (step_same env1 env2 c h)

theorem executed_eq_filterMap_stmt (env : Env) (log : List Flush) (h : Rendered env log) :
    executed log = (log.map Flush.stmt).filterMap fun b => (env.toSql b).toOption := by
  rw [executed_of_rendered env log h, List.filterMap_map]
  rfl

/-- C18: two runs of the same calls on the same receiver with an empty log (any
receiver, so also the one NewInsert makes for any column count C > 0), against
any two environments, agree after every call (after every initial part of the
call sequence): the logs hold the same flushed builders, with the same rows, in
the same order, and the receivers agree in counter, builder, threshold, table
and columns, so they are equal once the error lists are made equal. When the
two environments share ToSql and differ only in what the database answers, the
statements handed to the database are the same too. -/
theorem C18_outcome_independent (env1 env2 : Env) (m : Insert) (calls : List Call)
    (n : Nat) :
    (runCalls env1 (m, []) (calls.take n)).2.map Flush.stmt
        = (runCalls env2 (m, []) (calls.take n)).2.map Flush.stmt
      ∧ (runCalls env1 (m, []) (calls.take n)).2.map Flush.rows
        = (runCalls env2 (m, []) (calls.take n)).2.map Flush.rows
      ∧ (runCalls env1 (m, []) (calls.take n)).1.rows
        = (runCalls env2 (m, []) (calls.take n)).1.rows
      ∧ (runCalls env1 (m, []) (calls.take n)).1.insert
        = (runCalls env2 (m, []) (calls.take n)).1.insert
      ∧ { (runCalls env1 (m, []) (calls.take n)).1 with
            errors := (runCalls env2 (m, []) (calls.take n)).1.errors }
        = (runCalls env2 (m, []) (calls.take n)).1
      ∧ (env1.toSql = env2.toSql →
          executed (runCalls env1 (m, []) (calls.take n)).2
            = executed (runCalls env2 (m, []) (calls.take n)).2) := by
  obtain ⟨hr, hl, ht, hc, hi, hlog⟩ :=
    runCalls_same env1 env2 (calls.take n) (m, []) (m, []) (sameBatching_self _)
  refine ⟨hlog, ?_, hr, hi, ?_, ?_⟩
  · have h := congrArg (List.map InsertBuilder.values) hlog
    simpa [List.map_map, Flush.rows, Function.comp_def] using h
  · generalize (runCalls env1 (m, []) (calls.take n)).1 = a at hr hl ht hc hi
    generalize (runCalls env2 (m, []) (calls.take n)).1 = b at hr hl ht hc hi
    cases a
    cases b
    simp only at hr hl ht hc hi
    subst hr hl ht hc hi
    rfl
  · intro hsame
    rw [executed_eq_filterMap_stmt env1 _
        (runCalls_rendered env1 _ (m, []) (fun f hf => by cases hf)),
      executed_eq_filterMap_stmt env2 _
        (runCalls_rendered env2 _ (m, []) (fun f hf => by cases hf)),
      hlog, hsame]

theorem C18_outcome_independent_witness :
    NewInsert "t" ["a", "b"] = some insertAB
      ∧ (runCalls okEnv (insertAB, []) ((rowsAB 500).map Call.values ++ [Call.finish])).2.map
          Flush.rows
        = (runCalls failEnv (insertAB, [])
            ((rowsAB 500).map Call.values ++ [Call.finish])).2.map Flush.rows :=
  ⟨rfl, by
    have h := (C18_outcome_independent okEnv failEnv insertAB
      ((rowsAB 500).map Call.values ++ [Call.finish]) 501).2.1
    rw [List.take_of_length_le (by simp [rowsAB_length])] at h
    exact h⟩

end Bulk
